import Mathlib

/-!
# The unit entity of RWE (`src/rwe/Unit.cpp`)

A shallow embedding of `rwe::Unit`: the piece-animation commands, the order
queue, the behaviour state, the weapon-target state machine and the hit points;
with it the angle conversions of `src/rwe/util.cpp` and the projection matrices
of `src/rwe/camera/CabinetCamera.cpp`.

Conventions of the embedding.

* `float` is a type parameter `F`.  Arithmetic on it is exact (`Field F`), the
  comparison `==` is a `BEq` instance that is not assumed to be reflexive (a
  NaN is not equal to itself), and the constant `Pif` of `rwe_math.h` is an
  explicit argument.
* The conversions of legacy angles take the float arithmetic itself as an
  argument (`FloatArith`): `binary32` is the arithmetic of the code, which
  rounds every cast, product and quotient, `exactArith` the arithmetic without
  rounding.
* A member function that mutates the unit takes the unit and returns the new
  unit.  A function that can throw returns `Except String _`; the unit is
  untouched when it throws, because every `throw` of `Unit.cpp` precedes the
  first write.
* `weapons[weaponIndex]` on a `std::array` is undefined past the end of the
  array: the weapon functions return `Option`, and `none` stands for an access
  past the end.
* `Unit.h`, `UnitMesh.h`, `Vector3f.h`, `UnitId.h`, `Matrix4f.h` and the COB
  environment are not part of the sources at hand.  The types below hold the
  members that the code reads or writes.
-/

namespace rwe

/-! ## Data model -/

/-- Closed axis enumeration (`enum class Axis`). -/
inductive Axis where
  | X
  | Y
  | Z
  deriving DecidableEq, Repr

/-- Three floats, the members `x`, `y`, `z` that `Unit.cpp` assigns. -/
structure Vector3f (F : Type) where
  x : F
  y : F
  z : F

/-- Opaque unit handle; `==` on it is equality of the handle. -/
structure UnitId where
  value : Nat
  deriving DecidableEq, Repr

/-- Opaque player handle. -/
structure PlayerId where
  value : Nat
  deriving DecidableEq, Repr

/-- Angle in radians (`RadiansAngle`, a float wrapper with member `value`). -/
structure RadiansAngle (F : Type) where
  value : F

/-- Move operation of one axis of a piece: `MoveOperation(targetPosition, speed)`. -/
structure UnitMesh.MoveOperation (F : Type) where
  targetPosition : F
  speed : F

/-- Turn operation: `TurnOperation(targetAngle, speed)`. -/
structure UnitMesh.TurnOperation (F : Type) where
  targetAngle : RadiansAngle F
  speed : F

/-- Spin operation: `SpinOperation(currentSpeed, targetSpeed, acceleration)`. -/
structure UnitMesh.SpinOperation (F : Type) where
  currentSpeed : F
  targetSpeed : F
  acceleration : F

/-- Stop-spin operation: `StopSpinOperation(currentSpeed, deceleration)`. -/
structure UnitMesh.StopSpinOperation (F : Type) where
  currentSpeed : F
  deceleration : F

/-- The variant `TurnOperationUnion` held by the turn slot of an axis. -/
inductive UnitMesh.TurnOperationUnion (F : Type) where
  | turn (op : UnitMesh.TurnOperation F)
  | spin (op : UnitMesh.SpinOperation F)
  | stopSpin (op : UnitMesh.StopSpinOperation F)

/-- Modelled from the spec: the members of one mesh node that `Unit.cpp` uses
(`UnitMesh.h` is missing): its name, its offset and rotation, and per axis one
optional move operation and one optional turn-family operation. -/
structure UnitMesh.Piece (F : Type) where
  name : String
  offset : Vector3f F
  rotation : Vector3f F
  xMoveOperation : Option (UnitMesh.MoveOperation F)
  yMoveOperation : Option (UnitMesh.MoveOperation F)
  zMoveOperation : Option (UnitMesh.MoveOperation F)
  xTurnOperation : Option (UnitMesh.TurnOperationUnion F)
  yTurnOperation : Option (UnitMesh.TurnOperationUnion F)
  zTurnOperation : Option (UnitMesh.TurnOperationUnion F)

/-- Modelled from the spec: the mesh is a tree of named pieces (`UnitMesh.h` is
missing); a node is its own piece data and the list of its child meshes. -/
inductive UnitMesh (F : Type) where
  | node (piece : UnitMesh.Piece F) (children : List (UnitMesh F))

/-- Target of an attack: `boost::variant<UnitId, Vector3f>`. -/
inductive AttackTarget (F : Type) where
  | unit (target : UnitId)
  | position (target : Vector3f F)

/-- Order `MoveOrder(destination)`. -/
structure MoveOrder (F : Type) where
  destination : Vector3f F

/-- Order `AttackOrder(target)`, on a unit or on a position. -/
structure AttackOrder (F : Type) where
  target : AttackTarget F

/-- The variant `UnitOrder`. -/
inductive UnitOrder (F : Type) where
  | move (order : MoveOrder F)
  | attack (order : AttackOrder F)

/-- Weapon state: `UnitWeaponStateIdle` or `UnitWeaponStateAttacking(target)`. -/
inductive UnitWeaponState (F : Type) where
  | Idle
  | Attacking (target : AttackTarget F)

/-- A weapon; `state` is the only member that `Unit.cpp` touches. -/
structure UnitWeapon (F : Type) where
  state : UnitWeaponState F

/-- Modelled from the spec: the behaviour state is `IdleState` or some other,
in-progress state (`Unit.h` is missing); `B` is what an in-progress state holds. -/
inductive UnitState (B : Type) where
  | IdleState
  | inProgress (stage : B)

/-- A scripted thread as requested from the COB environment: the name of the
script function and its arguments. -/
structure CobThread where
  name : String
  params : List Int
  deriving DecidableEq, Repr

/-- Modelled from the spec: the scripting environment of a unit (the COB sources
are missing), reduced to the threads spawned so far, oldest first. -/
structure CobEnvironment where
  threads : List CobThread
  deriving DecidableEq, Repr

/-- The unit: the members of `rwe::Unit` that `Unit.cpp` reads or writes.
`hitPoints` is an `unsigned int`, only ever compared with and set to `0`. -/
structure Unit (F B : Type) where
  mesh : UnitMesh F
  position : Vector3f F
  rotation : F
  owner : PlayerId
  hitPoints : Nat
  orders : List (UnitOrder F)
  behaviourState : UnitState B
  weapons : List (Option (UnitWeapon F))
  cobEnvironment : CobEnvironment

variable {F B : Type}

/-! ## Orders -/

/-- Source: `createMoveOrder`. -/
def createMoveOrder (destination : Vector3f F) : UnitOrder F :=
  .move ⟨destination⟩

/-- Source: `createAttackOrder`. -/
def createAttackOrder (target : UnitId) : UnitOrder F :=
  .attack ⟨.unit target⟩

/-- Source: `createAttackGroundOrder`. -/
def createAttackGroundOrder (target : Vector3f F) : UnitOrder F :=
  .attack ⟨.position target⟩

/-! ## Mesh lookup -/

mutual
/-- Modelled from the spec: `UnitMesh::find` (missing), the first piece with the
given name in a depth-first walk that visits a node before its children. -/
def UnitMesh.find (pieceName : String) : UnitMesh F → Option (UnitMesh.Piece F)
  | .node piece children =>
    if pieceName = piece.name then some piece else UnitMesh.findAmong pieceName children
/-- Search of `UnitMesh.find` through a list of child meshes, in order. -/
def UnitMesh.findAmong (pieceName : String) : List (UnitMesh F) → Option (UnitMesh.Piece F)
  | [] => none
  | c :: cs =>
    match UnitMesh.find pieceName c with
    | some piece => some piece
    | none => UnitMesh.findAmong pieceName cs
end

mutual
/-- A write through the reference that `find` returns: `f` is applied to the
piece that `UnitMesh.find` finds, the rest of the tree is kept. -/
def UnitMesh.update (pieceName : String) (f : UnitMesh.Piece F → UnitMesh.Piece F) :
    UnitMesh F → UnitMesh F
  | .node piece children =>
    if pieceName = piece.name then .node (f piece) children
    else .node piece (UnitMesh.updateAmong pieceName f children)
/-- The write of `UnitMesh.update` in the first child mesh that holds the piece. -/
def UnitMesh.updateAmong (pieceName : String) (f : UnitMesh.Piece F → UnitMesh.Piece F) :
    List (UnitMesh F) → List (UnitMesh F)
  | [] => []
  | c :: cs =>
    match UnitMesh.find pieceName c with
    | some _ => UnitMesh.update pieceName f c :: cs
    | none => c :: UnitMesh.updateAmong pieceName f cs
end

/-! ## Angle conversion (`util.cpp`) -/

/-- Source: `toRadians(float)`, degrees to radians, `v * (Pif / 180.0f)`. -/
def toRadians [Field F] (Pif : F) (v : F) : F :=
  v * (Pif / 180)

/-! ## Piece-animation commands -/

/-- Source: `Unit::moveObject`. -/
def Unit.moveObject (u : Unit F B) (pieceName : String) (axis : Axis)
    (targetPosition speed : F) : Except String (Unit F B) :=
  match u.mesh.find pieceName with
  | none => .error ("Invalid piece name: " ++ pieceName)
  | some _ =>
    let op : UnitMesh.MoveOperation F := ⟨targetPosition, speed⟩
    match axis with
    | .X => .ok { u with mesh := u.mesh.update pieceName fun p => { p with xMoveOperation := some op } }
    | .Y => .ok { u with mesh := u.mesh.update pieceName fun p => { p with yMoveOperation := some op } }
    | .Z => .ok { u with mesh := u.mesh.update pieceName fun p => { p with zMoveOperation := some op } }

/-- Source: `Unit::moveObjectNow`. -/
def Unit.moveObjectNow (u : Unit F B) (pieceName : String) (axis : Axis)
    (targetPosition : F) : Except String (Unit F B) :=
  match u.mesh.find pieceName with
  | none => .error ("Invalid piece name: " ++ pieceName)
  | some _ =>
    match axis with
    | .X => .ok { u with mesh := u.mesh.update pieceName fun p =>
        { p with offset := { p.offset with x := targetPosition }, xMoveOperation := none } }
    | .Y => .ok { u with mesh := u.mesh.update pieceName fun p =>
        { p with offset := { p.offset with y := targetPosition }, yMoveOperation := none } }
    | .Z => .ok { u with mesh := u.mesh.update pieceName fun p =>
        { p with offset := { p.offset with z := targetPosition }, zMoveOperation := none } }

/-- Source: `Unit::turnObject`; the speed is given in degrees. -/
def Unit.turnObject [Field F] (Pif : F) (u : Unit F B) (pieceName : String) (axis : Axis)
    (targetAngle : RadiansAngle F) (speed : F) : Except String (Unit F B) :=
  match u.mesh.find pieceName with
  | none => .error ("Invalid piece name: " ++ pieceName)
  | some _ =>
    let op : UnitMesh.TurnOperationUnion F := .turn ⟨targetAngle, toRadians Pif speed⟩
    match axis with
    | .X => .ok { u with mesh := u.mesh.update pieceName fun p => { p with xTurnOperation := some op } }
    | .Y => .ok { u with mesh := u.mesh.update pieceName fun p => { p with yTurnOperation := some op } }
    | .Z => .ok { u with mesh := u.mesh.update pieceName fun p => { p with zTurnOperation := some op } }

/-- Source: `Unit::turnObjectNow`. -/
def Unit.turnObjectNow (u : Unit F B) (pieceName : String) (axis : Axis)
    (targetAngle : RadiansAngle F) : Except String (Unit F B) :=
  match u.mesh.find pieceName with
  | none => .error ("Invalid piece name: " ++ pieceName)
  | some _ =>
    match axis with
    | .X => .ok { u with mesh := u.mesh.update pieceName fun p =>
        { p with rotation := { p.rotation with x := targetAngle.value }, xTurnOperation := none } }
    | .Y => .ok { u with mesh := u.mesh.update pieceName fun p =>
        { p with rotation := { p.rotation with y := targetAngle.value }, yTurnOperation := none } }
    | .Z => .ok { u with mesh := u.mesh.update pieceName fun p =>
        { p with rotation := { p.rotation with z := targetAngle.value }, zTurnOperation := none } }

/-- Source: `Unit::spinObject`; speed and acceleration are given in degrees. -/
def Unit.spinObject [Field F] [BEq F] (Pif : F) (u : Unit F B) (pieceName : String)
    (axis : Axis) (speed acceleration : F) : Except String (Unit F B) :=
  match u.mesh.find pieceName with
  | none => .error ("Invalid piece name: " ++ pieceName)
  | some _ =>
    let op : UnitMesh.TurnOperationUnion F :=
      .spin ⟨if acceleration == 0 then toRadians Pif speed else 0,
        toRadians Pif speed, toRadians Pif acceleration⟩
    match axis with
    | .X => .ok { u with mesh := u.mesh.update pieceName fun p => { p with xTurnOperation := some op } }
    | .Y => .ok { u with mesh := u.mesh.update pieceName fun p => { p with yTurnOperation := some op } }
    | .Z => .ok { u with mesh := u.mesh.update pieceName fun p => { p with zTurnOperation := some op } }

/-- Source: `setStopSpinOp`; the new content of the turn slot `existingOp`. -/
def setStopSpinOp [Field F] [BEq F] (Pif : F)
    (existingOp : Option (UnitMesh.TurnOperationUnion F)) (deceleration : F) :
    Option (UnitMesh.TurnOperationUnion F) :=
  match existingOp with
  | none => none
  | some (.spin spinOp) =>
    if deceleration == 0 then none
    else some (.stopSpin ⟨spinOp.currentSpeed, toRadians Pif deceleration⟩)
  | some other => some other

/-- Source: `Unit::stopSpinObject`. -/
def Unit.stopSpinObject [Field F] [BEq F] (Pif : F) (u : Unit F B) (pieceName : String)
    (axis : Axis) (deceleration : F) : Except String (Unit F B) :=
  match u.mesh.find pieceName with
  | none => .error ("Invalid piece name: " ++ pieceName)
  | some _ =>
    match axis with
    | .X => .ok { u with mesh := u.mesh.update pieceName fun p =>
        { p with xTurnOperation := setStopSpinOp Pif p.xTurnOperation deceleration } }
    | .Y => .ok { u with mesh := u.mesh.update pieceName fun p =>
        { p with yTurnOperation := setStopSpinOp Pif p.yTurnOperation deceleration } }
    | .Z => .ok { u with mesh := u.mesh.update pieceName fun p =>
        { p with zTurnOperation := setStopSpinOp Pif p.zTurnOperation deceleration } }

/-- Source: `Unit::isMoveInProgress`. -/
def Unit.isMoveInProgress (u : Unit F B) (pieceName : String) (axis : Axis) :
    Except String Bool :=
  match u.mesh.find pieceName with
  | none => .error ("Invalid piece name " ++ pieceName)
  | some piece =>
    match axis with
    | .X => .ok piece.xMoveOperation.isSome
    | .Y => .ok piece.yMoveOperation.isSome
    | .Z => .ok piece.zMoveOperation.isSome

/-- Source: `Unit::isTurnInProgress`. -/
def Unit.isTurnInProgress (u : Unit F B) (pieceName : String) (axis : Axis) :
    Except String Bool :=
  match u.mesh.find pieceName with
  | none => .error ("Invalid piece name " ++ pieceName)
  | some piece =>
    match axis with
    | .X => .ok piece.xTurnOperation.isSome
    | .Y => .ok piece.yTurnOperation.isSome
    | .Z => .ok piece.zTurnOperation.isSome

/-- The unit as it stands after a call that can throw: the updated unit when
the call returns, the unit as it was when the call throws. -/
def Unit.after (u : Unit F B) (result : Except String (Unit F B)) : Unit F B :=
  match result with
  | .ok u1 => u1
  | .error _ => u

/-! ## Hit points -/

/-- Source: `Unit::isOwnedBy`. -/
def Unit.isOwnedBy (u : Unit F B) (playerId : PlayerId) : Bool :=
  u.owner == playerId

/-- Source: `Unit::isDead`. -/
def Unit.isDead (u : Unit F B) : Bool :=
  u.hitPoints == 0

/-- Source: `Unit::markAsDead`. -/
def Unit.markAsDead (u : Unit F B) : Unit F B :=
  { u with hitPoints := 0 }

/-! ## Weapon targets -/

/-- Modelled from the spec: `CobEnvironment::createThread` (the COB sources are
missing), the call that spawns a scripted thread: the environment gains one
thread with the given function name and arguments. -/
def CobEnvironment.createThread (env : CobEnvironment) (name : String) (params : List Int) :
    CobEnvironment :=
  { env with threads := env.threads ++ [⟨name, params⟩] }

/-- Source: `TargetIsUnitVisitor`. -/
def TargetIsUnitVisitor (unit : UnitId) : AttackTarget F → Bool
  | .unit target => unit == target
  | .position _ => false

/-- Source: `IsAttackingUnitVisitor`. -/
def IsAttackingUnitVisitor (unit : UnitId) : UnitWeaponState F → Bool
  | .Idle => false
  | .Attacking target => TargetIsUnitVisitor unit target

/-- Source: `TargetIsPositionVisitor`; `==` is the comparison of `Vector3f`. -/
def TargetIsPositionVisitor [BEq (Vector3f F)] (position : Vector3f F) : AttackTarget F → Bool
  | .unit _ => false
  | .position target => target == position

/-- Source: `IsAttackingPositionVisitor`. -/
def IsAttackingPositionVisitor [BEq (Vector3f F)] (position : Vector3f F) :
    UnitWeaponState F → Bool
  | .Idle => false
  | .Attacking target => TargetIsPositionVisitor position target

/-- The assignment `weapon->state = state` through the reference
`weapon = weapons[weaponIndex]` to a slot that holds a weapon. -/
def Unit.assignWeaponState (u : Unit F B) (weaponIndex : Nat) (state : UnitWeaponState F) :
    Unit F B :=
  match u.weapons[weaponIndex]? with
  | some (some weapon) =>
    { u with weapons := u.weapons.set weaponIndex (some { weapon with state := state }) }
  | _ => u

/-- Source: `Unit::clearWeaponTarget`.  The argument of the thread is
`static_cast<int>(weaponIndex)`, the index itself for an index into the array. -/
def Unit.clearWeaponTarget (u : Unit F B) (weaponIndex : Nat) : Option (Unit F B) :=
  match u.weapons[weaponIndex]? with
  | none => none
  | some none => some u
  | some (some _) =>
    let u1 := u.assignWeaponState weaponIndex .Idle
    some { u1 with
      cobEnvironment := u1.cobEnvironment.createThread "TargetCleared" [(weaponIndex : Int)] }

/-- Source: `Unit::setWeaponTarget(unsigned int, UnitId)`. -/
def Unit.setWeaponTarget (u : Unit F B) (weaponIndex : Nat) (target : UnitId) :
    Option (Unit F B) :=
  match u.weapons[weaponIndex]? with
  | none => none
  | some none => some u
  | some (some weapon) =>
    if !IsAttackingUnitVisitor target weapon.state then
      (u.clearWeaponTarget weaponIndex).map fun u1 =>
        u1.assignWeaponState weaponIndex (.Attacking (.unit target))
    else some u

/-- Source: `Unit::setWeaponTarget(unsigned int, const Vector3f&)`. -/
def Unit.setWeaponTargetPosition [BEq (Vector3f F)] (u : Unit F B) (weaponIndex : Nat)
    (target : Vector3f F) : Option (Unit F B) :=
  match u.weapons[weaponIndex]? with
  | none => none
  | some none => some u
  | some (some weapon) =>
    if !IsAttackingPositionVisitor target weapon.state then
      (u.clearWeaponTarget weaponIndex).map fun u1 =>
        u1.assignWeaponState weaponIndex (.Attacking (.position target))
    else some u

/-- Source: `Unit::clearWeaponTargets`, the loop over `0 .. weapons.size() - 1`. -/
def Unit.clearWeaponTargets (u : Unit F B) : Option (Unit F B) :=
  (List.range u.weapons.length).foldlM (fun acc i => acc.clearWeaponTarget i) u

/-! ## Order queue -/

/-- Source: `Unit::clearOrders`. -/
def Unit.clearOrders (u : Unit F B) : Option (Unit F B) :=
  Unit.clearWeaponTargets { u with orders := [], behaviourState := .IdleState }

/-- Source: `Unit::addOrder`. -/
def Unit.addOrder (u : Unit F B) (order : UnitOrder F) : Unit F B :=
  { u with orders := u.orders ++ [order] }

/-- A number of successive calls `clearWeaponTarget(weaponIndex)`. -/
def Unit.clearWeaponTargetTimes (weaponIndex : Nat) : Nat → Unit F B → Option (Unit F B)
  | 0, u => some u
  | n + 1, u => (u.clearWeaponTarget weaponIndex).bind (Unit.clearWeaponTargetTimes weaponIndex n)

/-- The thread that `clearWeaponTarget(weaponIndex)` spawns. -/
def targetClearedThread (weaponIndex : Nat) : CobThread :=
  ⟨"TargetCleared", [(weaponIndex : Int)]⟩

/-- The threads that one pass of the loop of `clearWeaponTargets` spawns over the
slots `slots`, the first of which has index `start`: one for each slot that
holds a weapon, in the order of the slots. -/
def targetClearedThreads (start : Nat) : List (Option (UnitWeapon F)) → List CobThread
  | [] => []
  | none :: rest => targetClearedThreads (start + 1) rest
  | some _ :: rest => targetClearedThread start :: targetClearedThreads (start + 1) rest

/-- A weapon slot with its weapon, if it holds one, set to `Idle`. -/
def idleSlot (slot : Option (UnitWeapon F)) : Option (UnitWeapon F) :=
  slot.map fun weapon => { weapon with state := .Idle }

/-- Modelled from the spec: `operator==` of `Vector3f` (`Vector3f.h` is missing),
taken coordinate by coordinate.  The theorems below hold for every comparison. -/
instance [BEq F] : BEq (Vector3f F) where
  beq a b := a.x == b.x && a.y == b.y && a.z == b.z

/-! ## Reading a mesh piece by piece -/

mutual
/-- The pieces of a mesh in the order in which `find` visits them: a node
before its children, the children in order. -/
def UnitMesh.pieces : UnitMesh F → List (UnitMesh.Piece F)
  | .node piece children => piece :: UnitMesh.piecesAmong children
/-- The pieces of a list of child meshes, in the order of `find`. -/
def UnitMesh.piecesAmong : List (UnitMesh F) → List (UnitMesh.Piece F)
  | [] => []
  | c :: cs => UnitMesh.pieces c ++ UnitMesh.piecesAmong cs
end

/-- The first piece of a list that bears the given name, with `f` applied to it. -/
def updateFirst (pieceName : String) (f : UnitMesh.Piece F → UnitMesh.Piece F) :
    List (UnitMesh.Piece F) → List (UnitMesh.Piece F)
  | [] => []
  | q :: qs => if pieceName = q.name then f q :: qs else q :: updateFirst pieceName f qs

/-- The move slot of a piece on an axis. -/
def UnitMesh.Piece.moveOperation (piece : UnitMesh.Piece F) :
    Axis → Option (UnitMesh.MoveOperation F)
  | .X => piece.xMoveOperation
  | .Y => piece.yMoveOperation
  | .Z => piece.zMoveOperation

/-- The turn slot of a piece on an axis. -/
def UnitMesh.Piece.turnOperation (piece : UnitMesh.Piece F) :
    Axis → Option (UnitMesh.TurnOperationUnion F)
  | .X => piece.xTurnOperation
  | .Y => piece.yTurnOperation
  | .Z => piece.zTurnOperation

/-- A piece with the move slot of an axis set to `op`. -/
def UnitMesh.Piece.withMoveOperation (piece : UnitMesh.Piece F) (axis : Axis)
    (op : Option (UnitMesh.MoveOperation F)) : UnitMesh.Piece F :=
  match axis with
  | .X => { piece with xMoveOperation := op }
  | .Y => { piece with yMoveOperation := op }
  | .Z => { piece with zMoveOperation := op }

/-- A piece with the turn slot of an axis set to `op`. -/
def UnitMesh.Piece.withTurnOperation (piece : UnitMesh.Piece F) (axis : Axis)
    (op : Option (UnitMesh.TurnOperationUnion F)) : UnitMesh.Piece F :=
  match axis with
  | .X => { piece with xTurnOperation := op }
  | .Y => { piece with yTurnOperation := op }
  | .Z => { piece with zTurnOperation := op }

/-- The coordinate of a vector on an axis. -/
def Vector3f.component (v : Vector3f F) : Axis → F
  | .X => v.x
  | .Y => v.y
  | .Z => v.z

/-- The indices of the weapon slots that hold a weapon, in increasing order. -/
def occupiedSlots (weapons : List (Option (UnitWeapon F))) : List Nat :=
  (List.range weapons.length).filter fun i =>
    match weapons[i]? with
    | some (some _) => true
    | _ => false

/-! ## Legacy angles (`util.cpp`) -/

/-- A legacy angle (`TaAngle`): a 16-bit signed integer, 65536 units per turn. -/
structure TaAngle where
  value : Int
  inRange : -32768 ≤ value ∧ value ≤ 32767

/-- The float operations that the angle conversions of `util.cpp` use, as an
interface: `ofInt` is `static_cast<float>` of an integer and also a float
literal with an integer value (`32768.0f`), `mul` and `div` are `*` and `/` on
floats, `toInt` is the integer that a cast of a float to an integer type
takes. -/
structure FloatArith (F : Type) where
  ofInt : Int → F
  mul : F → F → F
  div : F → F → F
  toInt : F → Int

/-- Source: `toRadians(TaAngle)`,
`static_cast<float>(angle.value) * (Pif / 32768.0f)`. -/
def toRadiansTaAngle (arith : FloatArith F) (Pif : F) (angle : TaAngle) : RadiansAngle F :=
  ⟨arith.mul (arith.ofInt angle.value) (arith.div Pif (arith.ofInt 32768))⟩

/-- Source: `toleranceToRadians`, `static_cast<float>(angle) * (Pif / 32768.0f)`
on an `unsigned int` of 32 bits. -/
def toleranceToRadians (arith : FloatArith F) (Pif : F) (angle : Fin 4294967296) : F :=
  arith.mul (arith.ofInt (angle.val : Int)) (arith.div Pif (arith.ofInt 32768))

/-- The conversion of a float to an integer type: truncation toward zero. -/
def truncate [LinearOrderedField F] [FloorRing F] (x : F) : Int :=
  if 0 ≤ x then ⌊x⌋ else ⌈x⌉

/-- The power of two with an integer exponent, as a rational. -/
def pow2 (k : Int) : ℚ :=
  if 0 ≤ k then ((2 ^ k.toNat : Nat) : ℚ) else 1 / ((2 ^ (-k).toNat : Nat) : ℚ)

/-- The number of binary digits of `n`, in at most `fuel` halvings. -/
def bitLength : Nat → Nat → Nat
  | 0, _ => 0
  | fuel + 1, n => if n = 0 then 0 else bitLength fuel (n / 2) + 1

/-- The binary exponent of a positive rational `x`: the integer `e` with
`2 ^ e ≤ x < 2 ^ (e + 1)`. -/
def floorLog2 (x : ℚ) : Int :=
  let k : Int := (bitLength x.num.natAbs x.num.natAbs : Int) - (bitLength x.den x.den : Int)
  if pow2 k ≤ x then k else k - 1

/-- The integer nearest to `q`, the even one of the two when `q` is halfway. -/
def roundHalfEven (q : ℚ) : Int :=
  let f := ⌊q⌋
  let r := q - f
  if r < 1 / 2 then f else if 1 / 2 < r then f + 1 else if f % 2 = 0 then f else f + 1

/-- Rounding to IEEE 754 binary32, to nearest and ties to even: a significand
of 24 binary digits, the unit in the last place never below `2 ^ (-149)`.  A
finite float is the rational it stands for; overflow, infinities and NaN are
left out (every value met here stays below `2 ^ 33`). -/
def roundBinary32 (x : ℚ) : ℚ :=
  if x = 0 then 0
  else
    let ulp := pow2 (max (floorLog2 |x| - 23) (-149))
    roundHalfEven (x / ulp) * ulp

/-- The float arithmetic of the code, binary32, with every float expression
evaluated in `float`: every cast of an integer, product and quotient is rounded
by `roundBinary32`; a cast to an integer type truncates.  A division by zero is
left out. -/
def binary32 : FloatArith ℚ where
  ofInt n := roundBinary32 (n : ℚ)
  mul x y := roundBinary32 (x * y)
  div x y := roundBinary32 (x / y)
  toInt x := truncate x

/-- Modelled from the spec: the constant `Pif` of `rwe_math.h` (missing), π as a
`float`: the binary32 value nearest to π, `13176795 * 2 ^ (-22)`. -/
def Pif32 : ℚ := 13176795 / 4194304

/-! ## The cabinet camera (`camera/CabinetCamera.cpp`) -/

/-- A 4 by 4 matrix of floats (`Matrix4f`); `*` is the matrix product. -/
abbrev Matrix4f (F : Type) := Matrix (Fin 4) (Fin 4) F

/-- Modelled from the spec: `Matrix4f::orthographicProjection` (`Matrix4f.h` is
missing), the standard orthographic projection of the box
`[left, right] x [bottom, top] x [nearPlane, farPlane]`. -/
def Matrix4f.orthographicProjection [Field F] (left right bottom top nearPlane farPlane : F) :
    Matrix4f F :=
  !![2 / (right - left), 0, 0, -((right + left) / (right - left));
     0, 2 / (top - bottom), 0, -((top + bottom) / (top - bottom));
     0, 0, -2 / (farPlane - nearPlane), -((farPlane + nearPlane) / (farPlane - nearPlane));
     0, 0, 0, 1]

/-- Modelled from the spec: `Matrix4f::cabinetProjection` (`Matrix4f.h` is
missing), the cabinet shear that adds `x * z` to the first coordinate and
`y * z` to the second. -/
def Matrix4f.cabinetProjection [Field F] (x y : F) : Matrix4f F :=
  !![1, 0, x, 0;
     0, 1, y, 0;
     0, 0, 1, 0;
     0, 0, 0, 1]

/-- The camera: `CabinetCamera(width, height)` with its position. -/
structure CabinetCamera (F : Type) where
  width : F
  height : F
  position : Vector3f F

/-- Source: `CabinetCamera::getProjectionMatrix`. -/
def CabinetCamera.getProjectionMatrix [Field F] (camera : CabinetCamera F) : Matrix4f F :=
  let halfWidth := camera.width / 2
  let halfHeight := camera.height / 2
  let cabinet : Matrix4f F := Matrix4f.cabinetProjection 0 (1 / 2)
  let ortho : Matrix4f F :=
    Matrix4f.orthographicProjection (-halfWidth) halfWidth (-halfHeight) halfHeight (-1000) 1000
  ortho * cabinet

/-- Source: `CabinetCamera::getInverseProjectionMatrix`.  The matrix that the
source names `inverseOrtho` is built by `orthographicProjection`, as in
`getProjectionMatrix`. -/
def CabinetCamera.getInverseProjectionMatrix [Field F] (camera : CabinetCamera F) :
    Matrix4f F :=
  let halfWidth := camera.width / 2
  let halfHeight := camera.height / 2
  let inverseCabinet : Matrix4f F := Matrix4f.cabinetProjection 0 (-(1 / 2))
  let inverseOrtho : Matrix4f F :=
    Matrix4f.orthographicProjection (-halfWidth) halfWidth (-halfHeight) halfHeight (-1000) 1000
  inverseCabinet * inverseOrtho

/-! ## Concrete units -/

/-- A piece at rest with the given name. -/
def restingPiece (name : String) : UnitMesh.Piece ℚ :=
  { name := name, offset := ⟨0, 0, 0⟩, rotation := ⟨0, 0, 0⟩,
    xMoveOperation := none, yMoveOperation := none, zMoveOperation := none,
    xTurnOperation := none, yTurnOperation := none, zTurnOperation := none }

/-- A mesh of three pieces: `base`, its child `turret`, and the child `barrel` of the turret. -/
def tankMesh : UnitMesh ℚ :=
  .node (restingPiece "base") [.node (restingPiece "turret") [.node (restingPiece "barrel") []]]

/-- A live unit on its way, with two queued orders and three weapon slots: an
idle weapon, an empty slot, and a weapon that attacks unit 7. -/
def tank : Unit ℚ String :=
  { mesh := tankMesh
    position := ⟨10, 0, 20⟩
    rotation := 0
    owner := ⟨1⟩
    hitPoints := 250
    orders := [createMoveOrder ⟨30, 0, 40⟩, createAttackOrder ⟨7⟩]
    behaviourState := .inProgress "MovingToDestination"
    weapons := [some ⟨.Idle⟩, none, some ⟨.Attacking (.unit ⟨7⟩)⟩]
    cobEnvironment := ⟨[]⟩ }

/-- The same unit with its first weapon attacking the position (5, 0, 5). -/
def artillery : Unit ℚ String :=
  { tank with weapons := [some ⟨.Attacking (.position ⟨5, 0, 5⟩)⟩, none, some ⟨.Idle⟩] }

/-- The unit `tank` after `markAsDead`. -/
def wreck : Unit ℚ String :=
  tank.markAsDead

/-- The mesh `tankMesh` with its turret spinning about the Y axis and its barrel
moving along Z and turning about X. -/
def busyMesh : UnitMesh ℚ :=
  .node (restingPiece "base")
    [.node { restingPiece "turret" with yTurnOperation := some (.spin ⟨3, 3, 0⟩) }
      [.node { restingPiece "barrel" with
                zMoveOperation := some ⟨4, 1⟩
                xTurnOperation := some (.turn ⟨⟨1⟩, 2⟩) } []]]

/-- The unit `tank` with the mesh `busyMesh`. -/
def busyTank : Unit ℚ String :=
  { tank with mesh := busyMesh }

/-- A camera of 640 by 480 at the origin. -/
def vgaCamera : CabinetCamera ℚ :=
  { width := 640, height := 480, position := ⟨0, 0, 0⟩ }

/-! ## Properties of the weapon-target state machine -/

theorem assignWeaponState_of_weapon (u : Unit F B) (i : Nat) (w : UnitWeapon F)
    (s : UnitWeaponState F) (h : u.weapons[i]? = some (some w)) :
    u.assignWeaponState i s = { u with weapons := u.weapons.set i (some ⟨s⟩) } := by
  simp [Unit.assignWeaponState, h]

theorem clearWeaponTarget_of_weapon (u : Unit F B) (i : Nat) (w : UnitWeapon F)
    (h : u.weapons[i]? = some (some w)) :
    u.clearWeaponTarget i = some { u with
      weapons := u.weapons.set i (some ⟨.Idle⟩)
      cobEnvironment := ⟨u.cobEnvironment.threads ++ [targetClearedThread i]⟩ } := by
  simp [Unit.clearWeaponTarget, h, assignWeaponState_of_weapon u i w _ h,
    CobEnvironment.createThread, targetClearedThread]

theorem clearWeaponTarget_of_empty (u : Unit F B) (i : Nat)
    (h : u.weapons[i]? = some none) : u.clearWeaponTarget i = some u := by
  simp [Unit.clearWeaponTarget, h]

theorem clearWeaponTarget_of_outside (u : Unit F B) (i : Nat)
    (h : u.weapons.length ≤ i) : u.clearWeaponTarget i = none := by
  simp [Unit.clearWeaponTarget, List.getElem?_eq_none h]

/-- The loop of `clearWeaponTargets` from slot `pre.length` on: it returns, every
remaining slot is set to `Idle`, and one thread is spawned per weapon. -/
theorem clearWeaponTargets_loop (rest : List (Option (UnitWeapon F))) :
    ∀ (u : Unit F B) (pre : List (Option (UnitWeapon F))), u.weapons = pre ++ rest →
      (List.range' pre.length rest.length).foldlM (fun acc i => acc.clearWeaponTarget i) u
        = some { u with
            weapons := pre ++ rest.map idleSlot
            cobEnvironment :=
              ⟨u.cobEnvironment.threads ++ targetClearedThreads pre.length rest⟩ } := by
  induction rest with
  | nil =>
    intro u pre h
    cases u
    simp_all [targetClearedThreads]
  | cons slot rest ih =>
    intro u pre h
    have hslot : u.weapons[pre.length]? = some slot := by
      rw [h, List.getElem?_append_right (Nat.le_refl _)]
      simp
    rw [List.length_cons, List.range'_succ, List.foldlM_cons]
    cases slot with
    | none =>
      rw [clearWeaponTarget_of_empty u _ hslot]
      have h1 : u.weapons = (pre ++ [none]) ++ rest := by simp [h]
      have := ih u (pre ++ [none]) h1
      simp only [List.length_append, List.length_singleton] at this
      simp only [Option.bind_eq_bind, Option.some_bind, this]
      simp [targetClearedThreads, idleSlot]
    | some w =>
      rw [clearWeaponTarget_of_weapon u _ w hslot]
      have hset : u.weapons.set pre.length (some ⟨.Idle⟩)
          = (pre ++ [some ⟨.Idle⟩]) ++ rest := by
        rw [h, List.set_append_right _ _ (Nat.le_refl _)]
        simp
      have := ih { u with
          weapons := u.weapons.set pre.length (some ⟨.Idle⟩)
          cobEnvironment := ⟨u.cobEnvironment.threads ++ [targetClearedThread pre.length]⟩ }
        (pre ++ [some ⟨.Idle⟩]) hset
      simp only [List.length_append, List.length_singleton] at this
      simp only [Option.bind_eq_bind, Option.some_bind, this]
      simp [targetClearedThreads, idleSlot]

/-- Outcome of `clearWeaponTargets`: it always returns, with every slot set to
`Idle` and one thread spawned per weapon, nothing else touched. -/
theorem clearWeaponTargets_eq (u : Unit F B) :
    u.clearWeaponTargets = some { u with
      weapons := u.weapons.map idleSlot
      cobEnvironment := ⟨u.cobEnvironment.threads ++ targetClearedThreads 0 u.weapons⟩ } := by
  have := clearWeaponTargets_loop u.weapons u [] (by simp)
  simpa [Unit.clearWeaponTargets, List.range_eq_range'] using this

/-- Outcome of `clearOrders`. -/
theorem clearOrders_eq (u : Unit F B) :
    u.clearOrders = some { u with
      orders := []
      behaviourState := .IdleState
      weapons := u.weapons.map idleSlot
      cobEnvironment := ⟨u.cobEnvironment.threads ++ targetClearedThreads 0 u.weapons⟩ } := by
  simp [Unit.clearOrders, clearWeaponTargets_eq]

theorem isAttackingUnit_of_other (t : UnitId) (s : UnitWeaponState F)
    (h : s ≠ .Attacking (.unit t)) : IsAttackingUnitVisitor t s = false := by
  cases s with
  | Idle => rfl
  | Attacking target =>
    cases target with
    | unit t1 =>
      simp only [IsAttackingUnitVisitor, TargetIsUnitVisitor, beq_eq_false_iff_ne, ne_eq]
      rintro rfl
      exact h rfl
    | position p => rfl

theorem isAttackingPosition_of_other [BEq (Vector3f F)] (t : Vector3f F)
    (s : UnitWeaponState F)
    (h : ∀ p, s = .Attacking (.position p) → (p == t) = false) :
    IsAttackingPositionVisitor t s = false := by
  cases s with
  | Idle => rfl
  | Attacking target =>
    cases target with
    | unit t1 => rfl
    | position p => exact h p rfl

/-- The write `weapon->state = state` that follows `clearWeaponTarget` in both
`setWeaponTarget` functions. -/
theorem assign_after_clear (u : Unit F B) (i : Nat) (w : UnitWeapon F)
    (s : UnitWeaponState F) (h : u.weapons[i]? = some (some w)) :
    (u.clearWeaponTarget i).map (fun u1 => u1.assignWeaponState i s)
      = some { u with
          weapons := u.weapons.set i (some ⟨s⟩)
          cobEnvironment := ⟨u.cobEnvironment.threads ++ [targetClearedThread i]⟩ } := by
  obtain ⟨hi, _⟩ := List.getElem?_eq_some_iff.mp h
  rw [clearWeaponTarget_of_weapon u i w h, Option.map_some']
  rw [assignWeaponState_of_weapon _ i ⟨.Idle⟩ s (by simp [hi])]
  simp [List.set_set]

theorem setWeaponTarget_of_other (u : Unit F B) (i : Nat) (w : UnitWeapon F) (t : UnitId)
    (h : u.weapons[i]? = some (some w)) (hn : IsAttackingUnitVisitor t w.state = false) :
    u.setWeaponTarget i t = some { u with
      weapons := u.weapons.set i (some ⟨.Attacking (.unit t)⟩)
      cobEnvironment := ⟨u.cobEnvironment.threads ++ [targetClearedThread i]⟩ } := by
  have := assign_after_clear u i w (.Attacking (.unit t)) h
  simpa [Unit.setWeaponTarget, h, hn] using this

theorem setWeaponTargetPosition_of_other [BEq (Vector3f F)] (u : Unit F B) (i : Nat)
    (w : UnitWeapon F) (t : Vector3f F)
    (h : u.weapons[i]? = some (some w)) (hn : IsAttackingPositionVisitor t w.state = false) :
    u.setWeaponTargetPosition i t = some { u with
      weapons := u.weapons.set i (some ⟨.Attacking (.position t)⟩)
      cobEnvironment := ⟨u.cobEnvironment.threads ++ [targetClearedThread i]⟩ } := by
  have := assign_after_clear u i w (.Attacking (.position t)) h
  simpa [Unit.setWeaponTargetPosition, h, hn] using this

theorem setWeaponTarget_of_same (u : Unit F B) (i : Nat) (w : UnitWeapon F) (t : UnitId)
    (h : u.weapons[i]? = some (some w)) (hs : IsAttackingUnitVisitor t w.state = true) :
    u.setWeaponTarget i t = some u := by
  simp [Unit.setWeaponTarget, h, hs]

theorem setWeaponTargetPosition_of_same [BEq (Vector3f F)] (u : Unit F B) (i : Nat)
    (w : UnitWeapon F) (t : Vector3f F)
    (h : u.weapons[i]? = some (some w)) (hs : IsAttackingPositionVisitor t w.state = true) :
    u.setWeaponTargetPosition i t = some u := by
  simp [Unit.setWeaponTargetPosition, h, hs]

theorem set_same_slot {α : Type} (l : List α) (i : Nat) (a : α) (h : l[i]? = some a) :
    l.set i a = l := by
  apply List.ext_getElem?
  intro j
  rw [List.getElem?_set]
  split
  · next hij =>
    subst hij
    obtain ⟨hi, _⟩ := List.getElem?_eq_some_iff.mp h
    simp [hi, h]
  · rfl

/-- On an idle weapon `clearWeaponTarget` changes nothing but the threads. -/
theorem clearWeaponTarget_of_idle (u : Unit F B) (i : Nat)
    (h : u.weapons[i]? = some (some ⟨.Idle⟩)) :
    u.clearWeaponTarget i = some { u with
      cobEnvironment := ⟨u.cobEnvironment.threads ++ [targetClearedThread i]⟩ } := by
  rw [clearWeaponTarget_of_weapon u i _ h, set_same_slot _ _ _ h]

theorem clearWeaponTargetTimes_of_idle (i n : Nat) :
    ∀ u : Unit F B, u.weapons[i]? = some (some ⟨.Idle⟩) →
      Unit.clearWeaponTargetTimes i n u = some { u with
        cobEnvironment :=
          ⟨u.cobEnvironment.threads ++ List.replicate n (targetClearedThread i)⟩ } := by
  induction n with
  | zero =>
    intro u _
    cases u
    simp [Unit.clearWeaponTargetTimes]
  | succ n ih =>
    intro u h
    rw [Unit.clearWeaponTargetTimes, clearWeaponTarget_of_idle u i h, Option.some_bind, ih]
    · simp [List.replicate_succ]
    · exact h

/-! ## Hit points are written by `markAsDead` only -/

theorem moveObject_hitPoints (u : Unit F B) (p : String) (a : Axis) (t s : F) :
    (u.after (u.moveObject p a t s)).hitPoints = u.hitPoints := by
  unfold Unit.moveObject
  cases u.mesh.find p <;> cases a <;> rfl

theorem moveObjectNow_hitPoints (u : Unit F B) (p : String) (a : Axis) (t : F) :
    (u.after (u.moveObjectNow p a t)).hitPoints = u.hitPoints := by
  unfold Unit.moveObjectNow
  cases u.mesh.find p <;> cases a <;> rfl

theorem turnObject_hitPoints [Field F] (Pif : F) (u : Unit F B) (p : String) (a : Axis)
    (t : RadiansAngle F) (s : F) :
    (u.after (u.turnObject Pif p a t s)).hitPoints = u.hitPoints := by
  unfold Unit.turnObject
  cases u.mesh.find p <;> cases a <;> rfl

theorem turnObjectNow_hitPoints (u : Unit F B) (p : String) (a : Axis)
    (t : RadiansAngle F) :
    (u.after (u.turnObjectNow p a t)).hitPoints = u.hitPoints := by
  unfold Unit.turnObjectNow
  cases u.mesh.find p <;> cases a <;> rfl

theorem spinObject_hitPoints [Field F] [BEq F] (Pif : F) (u : Unit F B) (p : String)
    (a : Axis) (s acc : F) :
    (u.after (u.spinObject Pif p a s acc)).hitPoints = u.hitPoints := by
  unfold Unit.spinObject
  cases u.mesh.find p <;> cases a <;> rfl

theorem stopSpinObject_hitPoints [Field F] [BEq F] (Pif : F) (u : Unit F B) (p : String)
    (a : Axis) (d : F) :
    (u.after (u.stopSpinObject Pif p a d)).hitPoints = u.hitPoints := by
  unfold Unit.stopSpinObject
  cases u.mesh.find p <;> cases a <;> rfl

/-- Within the array `clearWeaponTarget` returns and keeps the hit points. -/
theorem clearWeaponTarget_hitPoints (u : Unit F B) (i : Nat) (hi : i < u.weapons.length) :
    ∃ u1, u.clearWeaponTarget i = some u1 ∧ u1.hitPoints = u.hitPoints := by
  cases hs : u.weapons[i]? with
  | none => simp at hs; omega
  | some slot =>
    cases slot with
    | none => exact ⟨u, clearWeaponTarget_of_empty u i hs, rfl⟩
    | some w => exact ⟨_, clearWeaponTarget_of_weapon u i w hs, rfl⟩

/-- Within the array `setWeaponTarget` returns and keeps the hit points. -/
theorem setWeaponTarget_hitPoints (u : Unit F B) (i : Nat) (t : UnitId)
    (hi : i < u.weapons.length) :
    ∃ u1, u.setWeaponTarget i t = some u1 ∧ u1.hitPoints = u.hitPoints := by
  cases hs : u.weapons[i]? with
  | none => simp at hs; omega
  | some slot =>
    cases slot with
    | none => exact ⟨u, by simp [Unit.setWeaponTarget, hs], rfl⟩
    | some w =>
      cases ha : IsAttackingUnitVisitor t w.state with
      | true => exact ⟨u, setWeaponTarget_of_same u i w t hs ha, rfl⟩
      | false => exact ⟨_, setWeaponTarget_of_other u i w t hs ha, rfl⟩

/-- Within the array the position variant returns and keeps the hit points. -/
theorem setWeaponTargetPosition_hitPoints [BEq (Vector3f F)] (u : Unit F B) (i : Nat)
    (t : Vector3f F) (hi : i < u.weapons.length) :
    ∃ u1, u.setWeaponTargetPosition i t = some u1 ∧ u1.hitPoints = u.hitPoints := by
  cases hs : u.weapons[i]? with
  | none => simp at hs; omega
  | some slot =>
    cases slot with
    | none => exact ⟨u, by simp [Unit.setWeaponTargetPosition, hs], rfl⟩
    | some w =>
      cases ha : IsAttackingPositionVisitor t w.state with
      | true => exact ⟨u, setWeaponTargetPosition_of_same u i w t hs ha, rfl⟩
      | false => exact ⟨_, setWeaponTargetPosition_of_other u i w t hs ha, rfl⟩

theorem isDead_of_hitPoints (u v : Unit F B) (h : v.hitPoints = u.hitPoints)
    (hd : u.isDead = true) : v.isDead = true := by
  simp only [Unit.isDead] at hd ⊢
  rw [h]
  exact hd

/-! ## Order queue -/

/-- C1: `clearOrders` always returns, and afterwards the order queue is empty,
the behaviour state is `IdleState`, and every slot that held a weapon holds that
weapon in state `Idle` (an empty slot stays empty, and no slot holds a weapon in
another state), whatever the queue, the behaviour state and the weapon states
were. -/
theorem clearOrders_resets_unit (u : Unit F B) :
    ∃ u1, u.clearOrders = some u1 ∧
      u1.orders = [] ∧
      u1.behaviourState = .IdleState ∧
      u1.weapons.length = u.weapons.length ∧
      (∀ (i : Nat) (w : UnitWeapon F), u.weapons[i]? = some (some w) →
        u1.weapons[i]? = some (some { w with state := .Idle })) ∧
      (∀ i : Nat, u.weapons[i]? = some none → u1.weapons[i]? = some none) ∧
      (∀ (i : Nat) (w : UnitWeapon F), u1.weapons[i]? = some (some w) → w.state = .Idle) := by
  refine ⟨_, clearOrders_eq u, rfl, rfl, by simp, ?_, ?_, ?_⟩
  · intro i w h
    simp [List.getElem?_map, h, idleSlot]
  · intro i h
    simp [List.getElem?_map, h, idleSlot]
  · intro i w h
    simp only [List.getElem?_map] at h
    cases hs : u.weapons[i]? with
    | none => simp [hs] at h
    | some slot =>
      cases slot with
      | none => simp [hs, idleSlot] at h
      | some w0 =>
        simp [hs, idleSlot] at h
        rw [← h]

/-- C2: issuing an order, `clearOrders` followed by `addOrder(o)`, always goes
through and leaves exactly the order `o` in the queue and the behaviour state
`IdleState`, for every prior queue and every prior behaviour state. -/
theorem issue_order_replaces_queue (u : Unit F B) (o : UnitOrder F) :
    ∃ u1, u.clearOrders = some u1 ∧
      (u1.addOrder o).orders = [o] ∧
      (u1.addOrder o).orders.length = 1 ∧
      (u1.addOrder o).behaviourState = .IdleState :=
  ⟨_, clearOrders_eq u, rfl, rfl, rfl⟩

/-- C3: `addOrder(o)` appends without clearing: the queue is the old queue
followed by `o`, one longer, with the old orders at their old places; the
behaviour state, the weapons, the hit points and the mesh are unchanged and no
thread is spawned. -/
theorem addOrder_appends (u : Unit F B) (o : UnitOrder F) :
    (u.addOrder o).orders = u.orders ++ [o] ∧
    (u.addOrder o).orders.length = u.orders.length + 1 ∧
    (∀ i, i < u.orders.length → (u.addOrder o).orders[i]? = u.orders[i]?) ∧
    (u.addOrder o).behaviourState = u.behaviourState ∧
    (u.addOrder o).weapons = u.weapons ∧
    (u.addOrder o).hitPoints = u.hitPoints ∧
    (u.addOrder o).mesh = u.mesh ∧
    (u.addOrder o).cobEnvironment = u.cobEnvironment := by
  refine ⟨rfl, by simp [Unit.addOrder], ?_, rfl, rfl, rfl, rfl, rfl⟩
  intro i hi
  simp [Unit.addOrder, List.getElem?_append_left hi]

/-! ## Weapon targets -/

/-- C4: `setWeaponTarget` is idempotent on the same target: when slot `i` holds
a weapon that attacks unit `t`, `setWeaponTarget(i, t)` returns the unit as it
was, threads included; when it attacks a position `p` with `p == t`, so does the
position variant. -/
theorem setWeaponTarget_same_target [BEq (Vector3f F)] (u : Unit F B) (i : Nat)
    (w : UnitWeapon F) (h : u.weapons[i]? = some (some w)) :
    (∀ t : UnitId, w.state = .Attacking (.unit t) →
      u.setWeaponTarget i t = some u) ∧
    (∀ p t : Vector3f F, w.state = .Attacking (.position p) → (p == t) = true →
      u.setWeaponTargetPosition i t = some u) := by
  constructor
  · intro t hw
    apply setWeaponTarget_of_same u i w t h
    simp [hw, IsAttackingUnitVisitor, TargetIsUnitVisitor]
  · intro p t hw hpt
    apply setWeaponTargetPosition_of_same u i w t h
    simp [hw, IsAttackingPositionVisitor, TargetIsPositionVisitor, hpt]

/-- Witness of C4: on `tank` slot 2 attacks unit 7, on `artillery` slot 0 attacks
the position (5, 0, 5). -/
theorem setWeaponTarget_same_target_witness :
    tank.weapons[2]? = some (some ⟨.Attacking (.unit ⟨7⟩)⟩) ∧
    tank.setWeaponTarget 2 ⟨7⟩ = some tank ∧
    artillery.weapons[0]? = some (some ⟨.Attacking (.position ⟨5, 0, 5⟩)⟩) ∧
    ((⟨5, 0, 5⟩ : Vector3f ℚ) == ⟨5, 0, 5⟩) = true ∧
    artillery.setWeaponTargetPosition 0 ⟨5, 0, 5⟩ = some artillery :=
  ⟨rfl,
   (setWeaponTarget_same_target tank 2 ⟨.Attacking (.unit ⟨7⟩)⟩ rfl).1 ⟨7⟩ rfl,
   rfl,
   by decide,
   (setWeaponTarget_same_target artillery 0 ⟨.Attacking (.position ⟨5, 0, 5⟩)⟩ rfl).2
      ⟨5, 0, 5⟩ ⟨5, 0, 5⟩ rfl (by decide)⟩

/-- C5: when slot `i` holds a weapon that is `Idle` or attacks another target,
`setWeaponTarget(i, t)` returns, spawns exactly one thread `TargetCleared` with
the weapon index as its argument, and leaves the weapon attacking `t`; the other
slots, the order queue, the behaviour state and the hit points are unchanged.
The same holds for the position variant, where another target is a unit or a
position `p` for which `p == t` is false. -/
theorem setWeaponTarget_new_target [BEq (Vector3f F)] (u : Unit F B) (i : Nat)
    (w : UnitWeapon F) (h : u.weapons[i]? = some (some w)) :
    (∀ t : UnitId, w.state ≠ .Attacking (.unit t) →
      ∃ u1, u.setWeaponTarget i t = some u1 ∧
        u1.cobEnvironment.threads
          = u.cobEnvironment.threads ++ [⟨"TargetCleared", [(i : Int)]⟩] ∧
        u1.weapons[i]? = some (some ⟨.Attacking (.unit t)⟩) ∧
        (∀ j : Nat, j ≠ i → u1.weapons[j]? = u.weapons[j]?) ∧
        u1.orders = u.orders ∧
        u1.behaviourState = u.behaviourState ∧
        u1.hitPoints = u.hitPoints) ∧
    (∀ t : Vector3f F, (∀ p, w.state = .Attacking (.position p) → (p == t) = false) →
      ∃ u1, u.setWeaponTargetPosition i t = some u1 ∧
        u1.cobEnvironment.threads
          = u.cobEnvironment.threads ++ [⟨"TargetCleared", [(i : Int)]⟩] ∧
        u1.weapons[i]? = some (some ⟨.Attacking (.position t)⟩) ∧
        (∀ j : Nat, j ≠ i → u1.weapons[j]? = u.weapons[j]?) ∧
        u1.orders = u.orders ∧
        u1.behaviourState = u.behaviourState ∧
        u1.hitPoints = u.hitPoints) := by
  obtain ⟨hi, _⟩ := List.getElem?_eq_some_iff.mp h
  constructor
  · intro t hw
    refine ⟨_, setWeaponTarget_of_other u i w t h (isAttackingUnit_of_other t _ hw),
      rfl, by simp [hi], ?_, rfl, rfl, rfl⟩
    intro j hj
    simp [List.getElem?_set_ne (Ne.symm hj)]
  · intro t hw
    refine ⟨_, setWeaponTargetPosition_of_other u i w t h
      (isAttackingPosition_of_other t _ hw), rfl, by simp [hi], ?_, rfl, rfl, rfl⟩
    intro j hj
    simp [List.getElem?_set_ne (Ne.symm hj)]

/-- Witness of C5: the unit variant on the idle weapon 0 of `tank`, the position
variant on its weapon 2, which attacks a unit. -/
theorem setWeaponTarget_new_target_witness :
    tank.weapons[0]? = some (some ⟨.Idle⟩) ∧
    tank.weapons[2]? = some (some ⟨.Attacking (.unit ⟨7⟩)⟩) ∧
    (∃ u1, tank.setWeaponTarget 0 ⟨9⟩ = some u1 ∧
      u1.cobEnvironment.threads
        = tank.cobEnvironment.threads ++ [⟨"TargetCleared", [((0 : Nat) : Int)]⟩] ∧
      u1.weapons[0]? = some (some ⟨.Attacking (.unit ⟨9⟩)⟩) ∧
      (∀ j : Nat, j ≠ 0 → u1.weapons[j]? = tank.weapons[j]?) ∧
      u1.orders = tank.orders ∧
      u1.behaviourState = tank.behaviourState ∧
      u1.hitPoints = tank.hitPoints) ∧
    (∃ u1, tank.setWeaponTargetPosition 2 ⟨5, 0, 5⟩ = some u1 ∧
      u1.cobEnvironment.threads
        = tank.cobEnvironment.threads ++ [⟨"TargetCleared", [((2 : Nat) : Int)]⟩] ∧
      u1.weapons[2]? = some (some ⟨.Attacking (.position ⟨5, 0, 5⟩)⟩) ∧
      (∀ j : Nat, j ≠ 2 → u1.weapons[j]? = tank.weapons[j]?) ∧
      u1.orders = tank.orders ∧
      u1.behaviourState = tank.behaviourState ∧
      u1.hitPoints = tank.hitPoints) :=
  ⟨rfl, rfl,
   (setWeaponTarget_new_target tank 0 ⟨.Idle⟩ rfl).1 ⟨9⟩ (by simp),
   (setWeaponTarget_new_target tank 2 ⟨.Attacking (.unit ⟨7⟩)⟩ rfl).2 ⟨5, 0, 5⟩ (by simp)⟩

/-- C6: starting from an idle weapon in slot `i`, the first `setWeaponTarget(i, t)`
spawns one thread `TargetCleared` and leaves the weapon attacking `t`, and the
second call with the same target returns the very state the first one left: one
thread in all, not two.  For the position variant the target has to compare
equal to itself. -/
theorem setWeaponTarget_twice [BEq (Vector3f F)] (u : Unit F B) (i : Nat)
    (w : UnitWeapon F) (h : u.weapons[i]? = some (some w)) (hidle : w.state = .Idle) :
    (∀ t : UnitId,
      ∃ u1, u.setWeaponTarget i t = some u1 ∧
        u1.setWeaponTarget i t = some u1 ∧
        u1.weapons[i]? = some (some ⟨.Attacking (.unit t)⟩) ∧
        u1.cobEnvironment.threads
          = u.cobEnvironment.threads ++ [⟨"TargetCleared", [(i : Int)]⟩]) ∧
    (∀ t : Vector3f F, (t == t) = true →
      ∃ u1, u.setWeaponTargetPosition i t = some u1 ∧
        u1.setWeaponTargetPosition i t = some u1 ∧
        u1.weapons[i]? = some (some ⟨.Attacking (.position t)⟩) ∧
        u1.cobEnvironment.threads
          = u.cobEnvironment.threads ++ [⟨"TargetCleared", [(i : Int)]⟩]) := by
  obtain ⟨hi, _⟩ := List.getElem?_eq_some_iff.mp h
  constructor
  · intro t
    refine ⟨_, setWeaponTarget_of_other u i w t h (by simp [hidle, IsAttackingUnitVisitor]),
      ?_, by simp [hi], rfl⟩
    apply setWeaponTarget_of_same _ i ⟨.Attacking (.unit t)⟩ t (by simp [hi])
    simp [IsAttackingUnitVisitor, TargetIsUnitVisitor]
  · intro t ht
    refine ⟨_, setWeaponTargetPosition_of_other u i w t h
      (by simp [hidle, IsAttackingPositionVisitor]), ?_, by simp [hi], rfl⟩
    apply setWeaponTargetPosition_of_same _ i ⟨.Attacking (.position t)⟩ t (by simp [hi])
    simp [IsAttackingPositionVisitor, TargetIsPositionVisitor, ht]

/-- Witness of C6: both variants on the idle weapon 0 of `tank`. -/
theorem setWeaponTarget_twice_witness :
    tank.weapons[0]? = some (some ⟨.Idle⟩) ∧
    (∃ u1, tank.setWeaponTarget 0 ⟨9⟩ = some u1 ∧
      u1.setWeaponTarget 0 ⟨9⟩ = some u1 ∧
      u1.weapons[0]? = some (some ⟨.Attacking (.unit ⟨9⟩)⟩) ∧
      u1.cobEnvironment.threads
        = tank.cobEnvironment.threads ++ [⟨"TargetCleared", [((0 : Nat) : Int)]⟩]) ∧
    (∃ u1, tank.setWeaponTargetPosition 0 ⟨5, 0, 5⟩ = some u1 ∧
      u1.setWeaponTargetPosition 0 ⟨5, 0, 5⟩ = some u1 ∧
      u1.weapons[0]? = some (some ⟨.Attacking (.position ⟨5, 0, 5⟩)⟩) ∧
      u1.cobEnvironment.threads
        = tank.cobEnvironment.threads ++ [⟨"TargetCleared", [((0 : Nat) : Int)]⟩]) :=
  ⟨rfl,
   (setWeaponTarget_twice tank 0 ⟨.Idle⟩ rfl rfl).1 ⟨9⟩,
   (setWeaponTarget_twice tank 0 ⟨.Idle⟩ rfl rfl).2 ⟨5, 0, 5⟩ (by decide)⟩

/-- C7: the side effect of `clearWeaponTarget` is unconditional: on a slot that
holds a weapon, whatever its state, the call returns, leaves the weapon `Idle`
and the other slots as they were, and spawns exactly one thread `TargetCleared`
whose single argument is the weapon index; `n` calls in a row spawn `n` threads,
and on a weapon that is idle already they change nothing else. -/
theorem clearWeaponTarget_always_spawns (u : Unit F B) (i : Nat) (w : UnitWeapon F)
    (h : u.weapons[i]? = some (some w)) :
    (∃ u1, u.clearWeaponTarget i = some u1 ∧
      u1.weapons[i]? = some (some ⟨.Idle⟩) ∧
      (∀ j : Nat, j ≠ i → u1.weapons[j]? = u.weapons[j]?) ∧
      u1.cobEnvironment.threads
        = u.cobEnvironment.threads ++ [⟨"TargetCleared", [(i : Int)]⟩]) ∧
    (∀ n : Nat, ∃ un, Unit.clearWeaponTargetTimes i n u = some un ∧
      un.cobEnvironment.threads
        = u.cobEnvironment.threads ++ List.replicate n ⟨"TargetCleared", [(i : Int)]⟩) ∧
    (w.state = .Idle → ∀ n : Nat,
      Unit.clearWeaponTargetTimes i n u = some { u with
        cobEnvironment := ⟨u.cobEnvironment.threads
          ++ List.replicate n ⟨"TargetCleared", [(i : Int)]⟩⟩ }) := by
  obtain ⟨hi, _⟩ := List.getElem?_eq_some_iff.mp h
  refine ⟨⟨_, clearWeaponTarget_of_weapon u i w h, by simp [hi], ?_, rfl⟩, ?_, ?_⟩
  · intro j hj
    simp [List.getElem?_set_ne (Ne.symm hj)]
  · intro n
    cases n with
    | zero => exact ⟨u, rfl, by simp⟩
    | succ n =>
      have h1 := clearWeaponTargetTimes_of_idle i n
        { u with
          weapons := u.weapons.set i (some ⟨.Idle⟩)
          cobEnvironment := ⟨u.cobEnvironment.threads ++ [targetClearedThread i]⟩ }
        (by simp [hi])
      rw [Unit.clearWeaponTargetTimes, clearWeaponTarget_of_weapon u i w h,
        Option.some_bind, h1]
      exact ⟨_, rfl, by simp [List.replicate_succ, targetClearedThread]⟩
  · intro hidle n
    have hw : w = ⟨.Idle⟩ := by
      cases w
      simp_all
    exact clearWeaponTargetTimes_of_idle i n u (hw ▸ h)

/-- Witness of C7: the weapon 2 of `tank`, which is attacking, and three calls on
its idle weapon 0. -/
theorem clearWeaponTarget_always_spawns_witness :
    tank.weapons[2]? = some (some ⟨.Attacking (.unit ⟨7⟩)⟩) ∧
    (∃ u1, tank.clearWeaponTarget 2 = some u1 ∧
      u1.weapons[2]? = some (some ⟨.Idle⟩) ∧
      u1.cobEnvironment.threads = [⟨"TargetCleared", [2]⟩]) ∧
    (∃ u3, Unit.clearWeaponTargetTimes 0 3 tank = some u3 ∧
      u3.cobEnvironment.threads
        = [⟨"TargetCleared", [0]⟩, ⟨"TargetCleared", [0]⟩, ⟨"TargetCleared", [0]⟩]) := by
  refine ⟨rfl, ?_, ?_⟩
  · obtain ⟨u1, h1, h2, _, h4⟩ :=
      (clearWeaponTarget_always_spawns tank 2 ⟨.Attacking (.unit ⟨7⟩)⟩ rfl).1
    exact ⟨u1, h1, h2, by simpa [tank] using h4⟩
  · have h := (clearWeaponTarget_always_spawns tank 0 ⟨.Idle⟩ rfl).2.2 rfl 3
    exact ⟨_, h, by simp [tank, List.replicate]⟩

/-! ## Death -/

/-- C8, as the claim states it, fails: `tank` dies on its way (behaviour state
`inProgress "MovingToDestination"`), and the order issued afterwards,
`clearOrders` then `addOrder`, leaves it in `IdleState`. -/
theorem issue_order_resets_dead_unit :
    tank.markAsDead.isDead = true ∧
    tank.markAsDead.behaviourState = .inProgress "MovingToDestination" ∧
    ∃ u1, tank.markAsDead.clearOrders = some u1 ∧
      (u1.addOrder (createMoveOrder ⟨1, 0, 1⟩)).behaviourState = .IdleState ∧
      (u1.addOrder (createMoveOrder ⟨1, 0, 1⟩)).behaviourState
        ≠ tank.markAsDead.behaviourState := by
  refine ⟨rfl, rfl, _, clearOrders_eq _, rfl, ?_⟩
  simp [Unit.addOrder, Unit.markAsDead, tank]

/-- C8, amended: after `markAsDead` the unit stays dead under enqueuing and under
order issuance; enqueuing (`addOrder`) leaves the behaviour state as it was when
the unit died, and issuance (`clearOrders` then `addOrder`) goes through and
leaves the behaviour state `IdleState`, as it does for a live unit, which is the
state at death only for a unit that died idle. -/
theorem dead_unit_orders (u : Unit F B) (o : UnitOrder F) :
    (u.markAsDead.addOrder o).behaviourState = u.behaviourState ∧
    (u.markAsDead.addOrder o).isDead = true ∧
    ∃ u1, u.markAsDead.clearOrders = some u1 ∧
      (u1.addOrder o).behaviourState = .IdleState ∧
      (u1.addOrder o).isDead = true ∧
      (u.behaviourState = .IdleState →
        (u1.addOrder o).behaviourState = u.markAsDead.behaviourState) := by
  refine ⟨rfl, rfl, _, clearOrders_eq _, rfl, rfl, ?_⟩
  intro h
  simp [Unit.addOrder, Unit.markAsDead, h]

/-- C9: a dead unit never revives: after each operation of `Unit` on a dead unit,
`isDead` still holds.  A piece command leaves the unit dead whether it returns
or throws; `clearOrders` and `clearWeaponTargets` always return; an operation on
a weapon returns for every index into the array. -/
theorem dead_unit_stays_dead [Field F] [BEq F] [BEq (Vector3f F)] (Pif : F)
    (u : Unit F B) (h : u.isDead = true) :
    (∀ (p : String) (a : Axis) (t s : F),
      (u.after (u.moveObject p a t s)).isDead = true) ∧
    (∀ (p : String) (a : Axis) (t : F),
      (u.after (u.moveObjectNow p a t)).isDead = true) ∧
    (∀ (p : String) (a : Axis) (t : RadiansAngle F) (s : F),
      (u.after (u.turnObject Pif p a t s)).isDead = true) ∧
    (∀ (p : String) (a : Axis) (t : RadiansAngle F),
      (u.after (u.turnObjectNow p a t)).isDead = true) ∧
    (∀ (p : String) (a : Axis) (s acc : F),
      (u.after (u.spinObject Pif p a s acc)).isDead = true) ∧
    (∀ (p : String) (a : Axis) (d : F),
      (u.after (u.stopSpinObject Pif p a d)).isDead = true) ∧
    (∃ u1, u.clearOrders = some u1 ∧ u1.isDead = true) ∧
    (∀ o : UnitOrder F, (u.addOrder o).isDead = true) ∧
    (∀ (i : Nat) (t : UnitId), i < u.weapons.length →
      ∃ u1, u.setWeaponTarget i t = some u1 ∧ u1.isDead = true) ∧
    (∀ (i : Nat) (t : Vector3f F), i < u.weapons.length →
      ∃ u1, u.setWeaponTargetPosition i t = some u1 ∧ u1.isDead = true) ∧
    (∀ i : Nat, i < u.weapons.length →
      ∃ u1, u.clearWeaponTarget i = some u1 ∧ u1.isDead = true) ∧
    (∃ u1, u.clearWeaponTargets = some u1 ∧ u1.isDead = true) ∧
    u.markAsDead.isDead = true := by
  refine ⟨?_, ?_, ?_, ?_, ?_, ?_, ?_, ?_, ?_, ?_, ?_, ?_, rfl⟩
  · exact fun p a t s => isDead_of_hitPoints u _ (moveObject_hitPoints u p a t s) h
  · exact fun p a t => isDead_of_hitPoints u _ (moveObjectNow_hitPoints u p a t) h
  · exact fun p a t s => isDead_of_hitPoints u _ (turnObject_hitPoints Pif u p a t s) h
  · exact fun p a t => isDead_of_hitPoints u _ (turnObjectNow_hitPoints u p a t) h
  · exact fun p a s acc => isDead_of_hitPoints u _ (spinObject_hitPoints Pif u p a s acc) h
  · exact fun p a d => isDead_of_hitPoints u _ (stopSpinObject_hitPoints Pif u p a d) h
  · exact ⟨_, clearOrders_eq u, isDead_of_hitPoints u _ rfl h⟩
  · exact fun o => isDead_of_hitPoints u _ rfl h
  · intro i t hi
    obtain ⟨u1, h1, h2⟩ := setWeaponTarget_hitPoints u i t hi
    exact ⟨u1, h1, isDead_of_hitPoints u _ h2 h⟩
  · intro i t hi
    obtain ⟨u1, h1, h2⟩ := setWeaponTargetPosition_hitPoints u i t hi
    exact ⟨u1, h1, isDead_of_hitPoints u _ h2 h⟩
  · intro i hi
    obtain ⟨u1, h1, h2⟩ := clearWeaponTarget_hitPoints u i hi
    exact ⟨u1, h1, isDead_of_hitPoints u _ h2 h⟩
  · exact ⟨_, clearWeaponTargets_eq u, isDead_of_hitPoints u _ rfl h⟩

/-- Witness of C9: every operation on `wreck`, the unit `tank` after `markAsDead`,
with pieces that exist (`turret`, `barrel`) and one that does not (`wing`). -/
theorem dead_unit_stays_dead_witness :
    wreck.isDead = true ∧
    (wreck.after (wreck.moveObject "turret" .X 5 1)).isDead = true ∧
    (wreck.after (wreck.moveObjectNow "wing" .Y 5)).isDead = true ∧
    (wreck.after (wreck.turnObject (22 / 7) "barrel" .Z ⟨1⟩ 90)).isDead = true ∧
    (wreck.after (wreck.turnObjectNow "turret" .Y ⟨1⟩)).isDead = true ∧
    (wreck.after (wreck.spinObject (22 / 7) "turret" .Y 90 0)).isDead = true ∧
    (wreck.after (wreck.stopSpinObject (22 / 7) "turret" .Y 10)).isDead = true ∧
    (∃ u1, wreck.clearOrders = some u1 ∧ u1.isDead = true) ∧
    (wreck.addOrder (createAttackOrder ⟨7⟩)).isDead = true ∧
    (∃ u1, wreck.setWeaponTarget 0 ⟨9⟩ = some u1 ∧ u1.isDead = true) ∧
    (∃ u1, wreck.setWeaponTargetPosition 2 ⟨5, 0, 5⟩ = some u1 ∧ u1.isDead = true) ∧
    (∃ u1, wreck.clearWeaponTarget 1 = some u1 ∧ u1.isDead = true) ∧
    (∃ u1, wreck.clearWeaponTargets = some u1 ∧ u1.isDead = true) ∧
    wreck.markAsDead.isDead = true :=
  have h := dead_unit_stays_dead (22 / 7 : ℚ) wreck rfl
  ⟨rfl, h.1 "turret" .X 5 1, h.2.1 "wing" .Y 5, h.2.2.1 "barrel" .Z ⟨1⟩ 90,
   h.2.2.2.1 "turret" .Y ⟨1⟩, h.2.2.2.2.1 "turret" .Y 90 0, h.2.2.2.2.2.1 "turret" .Y 10,
   h.2.2.2.2.2.2.1, h.2.2.2.2.2.2.2.1 (createAttackOrder ⟨7⟩),
   h.2.2.2.2.2.2.2.2.1 0 ⟨9⟩ (by decide),
   h.2.2.2.2.2.2.2.2.2.1 2 ⟨5, 0, 5⟩ (by decide),
   h.2.2.2.2.2.2.2.2.2.2.1 1 (by decide),
   h.2.2.2.2.2.2.2.2.2.2.2.1, h.2.2.2.2.2.2.2.2.2.2.2.2⟩

/-- C10: `isDead` is true exactly when the hit points are 0; `markAsDead` sets
the hit points to 0, so `isDead` holds afterwards whatever the hit points were,
and it leaves the order queue, the behaviour state, the weapons, the mesh with
its piece operations and the threads as they were. -/
theorem isDead_iff_markAsDead (u : Unit F B) :
    (u.isDead = true ↔ u.hitPoints = 0) ∧
    u.markAsDead.hitPoints = 0 ∧
    u.markAsDead.isDead = true ∧
    u.markAsDead.orders = u.orders ∧
    u.markAsDead.behaviourState = u.behaviourState ∧
    u.markAsDead.weapons = u.weapons ∧
    u.markAsDead.mesh = u.mesh ∧
    u.markAsDead.cobEnvironment = u.cobEnvironment ∧
    u.markAsDead.position = u.position ∧
    u.markAsDead.rotation = u.rotation ∧
    u.markAsDead.owner = u.owner := by
  refine ⟨?_, rfl, rfl, rfl, rfl, rfl, rfl, rfl, rfl, rfl, rfl⟩
  simp [Unit.isDead]

/-! ## Properties of the mesh lookup -/

mutual
theorem find_eq_find? (p : String) :
    ∀ m : UnitMesh F, m.find p = m.pieces.find? (fun q => decide (p = q.name))
  | .node piece children => by
    simp only [UnitMesh.find, UnitMesh.pieces, List.find?_cons]
    by_cases h : p = piece.name
    · simp [h]
    · simp [h, findAmong_eq_find? p children]
theorem findAmong_eq_find? (p : String) :
    ∀ cs : List (UnitMesh F),
      UnitMesh.findAmong p cs = (UnitMesh.piecesAmong cs).find? (fun q => decide (p = q.name))
  | [] => by simp [UnitMesh.findAmong, UnitMesh.piecesAmong]
  | c :: cs => by
    simp only [UnitMesh.findAmong, UnitMesh.piecesAmong, List.find?_append]
    rw [find_eq_find? p c, findAmong_eq_find? p cs]
    cases List.find? (fun q => decide (p = q.name)) c.pieces <;> simp
end

theorem updateFirst_append (p : String) (f : UnitMesh.Piece F → UnitMesh.Piece F)
    (l1 l2 : List (UnitMesh.Piece F)) :
    updateFirst p f (l1 ++ l2)
      = match l1.find? (fun q => decide (p = q.name)) with
        | some _ => updateFirst p f l1 ++ l2
        | none => l1 ++ updateFirst p f l2 := by
  induction l1 with
  | nil => simp
  | cons q qs ih =>
    by_cases h : p = q.name
    · simp [updateFirst, h]
    · simp only [List.cons_append, updateFirst, h, if_false, List.find?_cons, decide_False,
        List.append_eq]
      rw [ih]
      cases List.find? (fun q => decide (p = q.name)) qs <;> simp

mutual
theorem pieces_update (p : String) (f : UnitMesh.Piece F → UnitMesh.Piece F) :
    ∀ m : UnitMesh F, (m.update p f).pieces = updateFirst p f m.pieces
  | .node piece children => by
    by_cases h : p = piece.name
    · simp [UnitMesh.update, UnitMesh.pieces, updateFirst, h]
    · simp [UnitMesh.update, UnitMesh.pieces, updateFirst, h, piecesAmong_update p f children]
theorem piecesAmong_update (p : String) (f : UnitMesh.Piece F → UnitMesh.Piece F) :
    ∀ cs : List (UnitMesh F),
      UnitMesh.piecesAmong (UnitMesh.updateAmong p f cs)
        = updateFirst p f (UnitMesh.piecesAmong cs)
  | [] => by simp [UnitMesh.updateAmong, UnitMesh.piecesAmong, updateFirst]
  | c :: cs => by
    rw [UnitMesh.piecesAmong, updateFirst_append, ← find_eq_find? p c, UnitMesh.updateAmong]
    cases hc : UnitMesh.find p c with
    | none => simp [UnitMesh.piecesAmong, piecesAmong_update p f cs]
    | some q => simp [UnitMesh.piecesAmong, pieces_update p f c]
end

theorem find?_updateFirst_same (p : String) (f : UnitMesh.Piece F → UnitMesh.Piece F)
    (hname : ∀ q, (f q).name = q.name) (l : List (UnitMesh.Piece F)) :
    (updateFirst p f l).find? (fun q => decide (p = q.name))
      = (l.find? (fun q => decide (p = q.name))).map f := by
  induction l with
  | nil => simp [updateFirst]
  | cons q qs ih =>
    by_cases h : p = q.name
    · simp [updateFirst, h, hname]
    · simp [updateFirst, h, ih]

theorem find?_updateFirst_other (p r : String) (hr : r ≠ p)
    (f : UnitMesh.Piece F → UnitMesh.Piece F) (hname : ∀ q, (f q).name = q.name)
    (l : List (UnitMesh.Piece F)) :
    (updateFirst p f l).find? (fun q => decide (r = q.name))
      = l.find? (fun q => decide (r = q.name)) := by
  induction l with
  | nil => simp [updateFirst]
  | cons q qs ih =>
    by_cases h : p = q.name
    · have hrq : r ≠ q.name := fun e => hr (e.trans h.symm)
      simp [updateFirst, h, hname, hrq]
    · simp [updateFirst, h, List.find?_cons, ih]

theorem updateFirst_eq_set (p : String) (f : UnitMesh.Piece F → UnitMesh.Piece F)
    (l : List (UnitMesh.Piece F)) (piece : UnitMesh.Piece F)
    (h : l.find? (fun q => decide (p = q.name)) = some piece) :
    ∃ k, l[k]? = some piece ∧ updateFirst p f l = l.set k (f piece) := by
  induction l with
  | nil => simp at h
  | cons q qs ih =>
    by_cases hq : p = q.name
    · have : q = piece := by simpa [hq] using h
      subst this
      exact ⟨0, by simp, by simp [updateFirst, hq]⟩
    · have h1 : qs.find? (fun q => decide (p = q.name)) = some piece := by
        simpa [hq] using h
      obtain ⟨k, hk, hset⟩ := ih h1
      exact ⟨k + 1, by simpa using hk, by simp [updateFirst, hq, hset]⟩

mutual
theorem update_of_fixed (p : String) (f : UnitMesh.Piece F → UnitMesh.Piece F) :
    ∀ (m : UnitMesh F) (piece : UnitMesh.Piece F), m.find p = some piece → f piece = piece →
      m.update p f = m
  | .node q children, piece, h, hf => by
    by_cases hq : p = q.name
    · have : q = piece := by simpa [UnitMesh.find, hq] using h
      subst this
      simp [UnitMesh.update, hq, hf]
    · have h1 : UnitMesh.findAmong p children = some piece := by
        simpa [UnitMesh.find, hq] using h
      simp [UnitMesh.update, hq, updateAmong_of_fixed p f children piece h1 hf]
theorem updateAmong_of_fixed (p : String) (f : UnitMesh.Piece F → UnitMesh.Piece F) :
    ∀ (cs : List (UnitMesh F)) (piece : UnitMesh.Piece F),
      UnitMesh.findAmong p cs = some piece → f piece = piece →
      UnitMesh.updateAmong p f cs = cs
  | [], piece, h, _ => by simp [UnitMesh.findAmong] at h
  | c :: cs, piece, h, hf => by
    cases hc : UnitMesh.find p c with
    | none =>
      have h1 : UnitMesh.findAmong p cs = some piece := by
        simpa [UnitMesh.findAmong, hc] using h
      simp [UnitMesh.updateAmong, hc, updateAmong_of_fixed p f cs piece h1 hf]
    | some q =>
      have : q = piece := by simpa [UnitMesh.findAmong, hc] using h
      subst this
      simp [UnitMesh.updateAmong, hc, update_of_fixed p f c q hc hf]
end

/-- Absence of a piece: `find` returns nothing exactly when no piece of the mesh
bears the name. -/
theorem find_eq_none_iff (p : String) (m : UnitMesh F) :
    m.find p = none ↔ ∀ q ∈ m.pieces, q.name ≠ p := by
  rw [find_eq_find?, List.find?_eq_none]
  constructor
  · intro h q hq e
    exact h q hq (by simp [e])
  · intro h q hq
    simpa using fun e => h q hq e.symm

/-- The piece that `find` returns bears the name asked for. -/
theorem find_name (p : String) (m : UnitMesh F) (piece : UnitMesh.Piece F)
    (h : m.find p = some piece) : piece.name = p := by
  rw [find_eq_find?] at h
  have := List.find?_some h
  exact (of_decide_eq_true this).symm

/-- A write through the reference that `find` returns, for a write `f` that
keeps the name: the piece found becomes `f piece`, a lookup of another name
gives what it gave, and the list of pieces changes at one place only. -/
theorem update_spec (p : String) (f : UnitMesh.Piece F → UnitMesh.Piece F)
    (hname : ∀ q, (f q).name = q.name) (m : UnitMesh F) (piece : UnitMesh.Piece F)
    (h : m.find p = some piece) :
    (m.update p f).find p = some (f piece) ∧
    (∀ r : String, r ≠ p → (m.update p f).find r = m.find r) ∧
    ∃ k, m.pieces[k]? = some piece ∧ (m.update p f).pieces = m.pieces.set k (f piece) := by
  refine ⟨?_, ?_, ?_⟩
  · rw [find_eq_find?, pieces_update, find?_updateFirst_same p f hname, ← find_eq_find?, h]
    rfl
  · intro r hr
    rw [find_eq_find?, pieces_update, find?_updateFirst_other p r hr f hname, ← find_eq_find?]
  · rw [find_eq_find?] at h
    obtain ⟨k, hk, hset⟩ := updateFirst_eq_set p f m.pieces piece h
    exact ⟨k, hk, by rw [pieces_update, hset]⟩

/-! ## Outcome of the piece commands -/

theorem withMoveOperation_name (piece : UnitMesh.Piece F) (a : Axis)
    (op : Option (UnitMesh.MoveOperation F)) : (piece.withMoveOperation a op).name = piece.name := by
  cases a <;> rfl

theorem withTurnOperation_name (piece : UnitMesh.Piece F) (a : Axis)
    (op : Option (UnitMesh.TurnOperationUnion F)) :
    (piece.withTurnOperation a op).name = piece.name := by
  cases a <;> rfl

theorem moveObject_of_piece (u : Unit F B) (p : String) (a : Axis) (t s : F)
    (piece : UnitMesh.Piece F) (h : u.mesh.find p = some piece) :
    u.moveObject p a t s
      = .ok { u with mesh := u.mesh.update p fun q => q.withMoveOperation a (some ⟨t, s⟩) } := by
  unfold Unit.moveObject
  rw [h]
  cases a <;> rfl

theorem turnObject_of_piece [Field F] (Pif : F) (u : Unit F B) (p : String) (a : Axis)
    (t : RadiansAngle F) (s : F) (piece : UnitMesh.Piece F) (h : u.mesh.find p = some piece) :
    u.turnObject Pif p a t s
      = .ok { u with mesh := u.mesh.update p fun q =>
          q.withTurnOperation a (some (.turn ⟨t, toRadians Pif s⟩)) } := by
  unfold Unit.turnObject
  rw [h]
  cases a <;> rfl

theorem spinObject_of_piece [Field F] [BEq F] (Pif : F) (u : Unit F B) (p : String)
    (a : Axis) (s acc : F) (piece : UnitMesh.Piece F) (h : u.mesh.find p = some piece) :
    u.spinObject Pif p a s acc
      = .ok { u with mesh := u.mesh.update p fun q =>
          q.withTurnOperation a (some (.spin
            ⟨if acc == 0 then toRadians Pif s else 0, toRadians Pif s, toRadians Pif acc⟩)) } := by
  unfold Unit.spinObject
  rw [h]
  cases a <;> rfl

theorem stopSpinObject_of_piece [Field F] [BEq F] (Pif : F) (u : Unit F B) (p : String)
    (a : Axis) (d : F) (piece : UnitMesh.Piece F) (h : u.mesh.find p = some piece) :
    u.stopSpinObject Pif p a d
      = .ok { u with mesh := u.mesh.update p fun q =>
          q.withTurnOperation a (setStopSpinOp Pif (q.turnOperation a) d) } := by
  unfold Unit.stopSpinObject
  rw [h]
  cases a <;> rfl

theorem moveObjectNow_of_piece (u : Unit F B) (p : String) (a : Axis) (t : F)
    (piece : UnitMesh.Piece F) (h : u.mesh.find p = some piece) :
    ∃ f : UnitMesh.Piece F → UnitMesh.Piece F,
      u.moveObjectNow p a t = .ok { u with mesh := u.mesh.update p f } ∧
      (∀ q, (f q).name = q.name) ∧
      (∀ q, (f q).moveOperation a = none) ∧
      (∀ q, (f q).offset.component a = t) ∧
      (∀ q b, b ≠ a → (f q).moveOperation b = q.moveOperation b) ∧
      (∀ q b, b ≠ a → (f q).offset.component b = q.offset.component b) ∧
      (∀ q b, (f q).turnOperation b = q.turnOperation b) ∧
      (∀ q, (f q).rotation = q.rotation) := by
  unfold Unit.moveObjectNow
  rw [h]
  cases a
  all_goals
    refine ⟨_, rfl, fun _ => rfl, fun _ => rfl, fun _ => rfl, ?_, ?_, ?_, fun _ => rfl⟩
  all_goals
    intro q b
    cases b <;> simp [UnitMesh.Piece.moveOperation, UnitMesh.Piece.turnOperation,
      Vector3f.component]

/-- A write of the move slot of an axis of the piece that `find` returns. -/
theorem update_withMoveOperation (m : UnitMesh F) (p : String) (a : Axis)
    (op : Option (UnitMesh.MoveOperation F)) (piece : UnitMesh.Piece F)
    (h : m.find p = some piece) :
    ∃ piece1, (m.update p fun q => q.withMoveOperation a op).find p = some piece1 ∧
      piece1.moveOperation a = op ∧
      (∀ b : Axis, b ≠ a → piece1.moveOperation b = piece.moveOperation b) ∧
      (∀ b : Axis, piece1.turnOperation b = piece.turnOperation b) ∧
      piece1.offset = piece.offset ∧
      piece1.rotation = piece.rotation ∧
      (∀ r : String, r ≠ p →
        (m.update p fun q => q.withMoveOperation a op).find r = m.find r) ∧
      ∃ k, m.pieces[k]? = some piece ∧
        (m.update p fun q => q.withMoveOperation a op).pieces = m.pieces.set k piece1 := by
  obtain ⟨h1, h2, h3⟩ := update_spec p (fun q => q.withMoveOperation a op)
    (fun q => withMoveOperation_name q a op) m piece h
  refine ⟨_, h1, ?_, ?_, ?_, ?_, ?_, h2, h3⟩
  · cases a <;> rfl
  · intro b hb
    cases a <;> cases b <;> first | rfl | exact absurd rfl hb
  · intro b
    cases a <;> cases b <;> rfl
  · cases a <;> rfl
  · cases a <;> rfl

/-- A write of the turn slot of an axis of the piece that `find` returns. -/
theorem update_withTurnOperation (m : UnitMesh F) (p : String) (a : Axis)
    (op : Option (UnitMesh.TurnOperationUnion F)) (piece : UnitMesh.Piece F)
    (h : m.find p = some piece) :
    ∃ piece1, (m.update p fun q => q.withTurnOperation a op).find p = some piece1 ∧
      piece1.turnOperation a = op ∧
      (∀ b : Axis, b ≠ a → piece1.turnOperation b = piece.turnOperation b) ∧
      (∀ b : Axis, piece1.moveOperation b = piece.moveOperation b) ∧
      piece1.offset = piece.offset ∧
      piece1.rotation = piece.rotation ∧
      (∀ r : String, r ≠ p →
        (m.update p fun q => q.withTurnOperation a op).find r = m.find r) ∧
      ∃ k, m.pieces[k]? = some piece ∧
        (m.update p fun q => q.withTurnOperation a op).pieces = m.pieces.set k piece1 := by
  obtain ⟨h1, h2, h3⟩ := update_spec p (fun q => q.withTurnOperation a op)
    (fun q => withTurnOperation_name q a op) m piece h
  refine ⟨_, h1, ?_, ?_, ?_, ?_, ?_, h2, h3⟩
  · cases a <;> rfl
  · intro b hb
    cases a <;> cases b <;> first | rfl | exact absurd rfl hb
  · intro b
    cases a <;> cases b <;> rfl
  · cases a <;> rfl
  · cases a <;> rfl

/-! ## Piece operations -/

/-- C11: setting a new operation replaces the one on that axis and touches
nothing else.  For a piece `p` that exists and an axis `a`: after `moveObject`
the move slot of `(p, a)` holds exactly the operation `(t, s)`; after
`turnObject` or `spinObject` the turn slot of `(p, a)` holds exactly the new
turn or spin operation, whatever either slot held; the other slots of `p`, its
offset and rotation, every other piece (by lookup and in the list of pieces) and
every member of the unit outside the mesh are unchanged. -/
theorem new_operation_replaces_slot [Field F] [BEq F] (Pif : F) (u : Unit F B)
    (p : String) (a : Axis) (piece : UnitMesh.Piece F) (h : u.mesh.find p = some piece) :
    (∀ t s : F, ∃ u1 piece1, u.moveObject p a t s = .ok u1 ∧
      u1.mesh.find p = some piece1 ∧
      piece1.moveOperation a = some ⟨t, s⟩ ∧
      (∀ b : Axis, b ≠ a → piece1.moveOperation b = piece.moveOperation b) ∧
      (∀ b : Axis, piece1.turnOperation b = piece.turnOperation b) ∧
      piece1.offset = piece.offset ∧
      piece1.rotation = piece.rotation ∧
      (∀ r : String, r ≠ p → u1.mesh.find r = u.mesh.find r) ∧
      (∃ k, u.mesh.pieces[k]? = some piece ∧ u1.mesh.pieces = u.mesh.pieces.set k piece1) ∧
      u1 = { u with mesh := u1.mesh }) ∧
    (∀ (t : RadiansAngle F) (s : F), ∃ u1 piece1, u.turnObject Pif p a t s = .ok u1 ∧
      u1.mesh.find p = some piece1 ∧
      piece1.turnOperation a = some (.turn ⟨t, toRadians Pif s⟩) ∧
      (∀ b : Axis, b ≠ a → piece1.turnOperation b = piece.turnOperation b) ∧
      (∀ b : Axis, piece1.moveOperation b = piece.moveOperation b) ∧
      piece1.offset = piece.offset ∧
      piece1.rotation = piece.rotation ∧
      (∀ r : String, r ≠ p → u1.mesh.find r = u.mesh.find r) ∧
      (∃ k, u.mesh.pieces[k]? = some piece ∧ u1.mesh.pieces = u.mesh.pieces.set k piece1) ∧
      u1 = { u with mesh := u1.mesh }) ∧
    (∀ s acc : F, ∃ u1 piece1, u.spinObject Pif p a s acc = .ok u1 ∧
      u1.mesh.find p = some piece1 ∧
      piece1.turnOperation a = some (.spin
        ⟨if acc == 0 then toRadians Pif s else 0, toRadians Pif s, toRadians Pif acc⟩) ∧
      (∀ b : Axis, b ≠ a → piece1.turnOperation b = piece.turnOperation b) ∧
      (∀ b : Axis, piece1.moveOperation b = piece.moveOperation b) ∧
      piece1.offset = piece.offset ∧
      piece1.rotation = piece.rotation ∧
      (∀ r : String, r ≠ p → u1.mesh.find r = u.mesh.find r) ∧
      (∃ k, u.mesh.pieces[k]? = some piece ∧ u1.mesh.pieces = u.mesh.pieces.set k piece1) ∧
      u1 = { u with mesh := u1.mesh }) := by
  refine ⟨?_, ?_, ?_⟩
  · intro t s
    obtain ⟨piece1, h1, h2, h3, h4, h5, h6, h7, h8⟩ :=
      update_withMoveOperation u.mesh p a (some ⟨t, s⟩) piece h
    exact ⟨_, piece1, moveObject_of_piece u p a t s piece h, h1, h2, h3, h4, h5, h6, h7, h8, rfl⟩
  · intro t s
    obtain ⟨piece1, h1, h2, h3, h4, h5, h6, h7, h8⟩ :=
      update_withTurnOperation u.mesh p a (some (.turn ⟨t, toRadians Pif s⟩)) piece h
    exact ⟨_, piece1, turnObject_of_piece Pif u p a t s piece h,
      h1, h2, h3, h4, h5, h6, h7, h8, rfl⟩
  · intro s acc
    obtain ⟨piece1, h1, h2, h3, h4, h5, h6, h7, h8⟩ :=
      update_withTurnOperation u.mesh p a (some (.spin
        ⟨if acc == 0 then toRadians Pif s else 0, toRadians Pif s, toRadians Pif acc⟩)) piece h
    exact ⟨_, piece1, spinObject_of_piece Pif u p a s acc piece h,
      h1, h2, h3, h4, h5, h6, h7, h8, rfl⟩

/-- Witness of C11: the barrel of `busyTank`, whose Z move slot and X turn slot
hold an operation already. -/
theorem new_operation_replaces_slot_witness :
    busyTank.mesh.find "barrel"
      = some { restingPiece "barrel" with
          zMoveOperation := some ⟨4, 1⟩, xTurnOperation := some (.turn ⟨⟨1⟩, 2⟩) } ∧
    (∃ u1 piece1, busyTank.moveObject "barrel" .Z 9 2 = .ok u1 ∧
      u1.mesh.find "barrel" = some piece1 ∧
      piece1.moveOperation .Z = some ⟨9, 2⟩ ∧
      piece1.turnOperation .X = some (.turn ⟨⟨1⟩, 2⟩) ∧
      u1.mesh.find "turret" = busyTank.mesh.find "turret") ∧
    (∃ u1 piece1, busyTank.spinObject (22 / 7) "barrel" .X 90 0 = .ok u1 ∧
      u1.mesh.find "barrel" = some piece1 ∧
      piece1.turnOperation .X = some (.spin
        ⟨toRadians (22 / 7) 90, toRadians (22 / 7) 90, toRadians (22 / 7) 0⟩) ∧
      piece1.moveOperation .Z = some ⟨4, 1⟩) := by
  have hfind : busyTank.mesh.find "barrel"
      = some { restingPiece "barrel" with
          zMoveOperation := some ⟨4, 1⟩, xTurnOperation := some (.turn ⟨⟨1⟩, 2⟩) } := by
    simp [busyTank, busyMesh, UnitMesh.find, UnitMesh.findAmong, restingPiece]
  refine ⟨hfind, ?_, ?_⟩
  · obtain ⟨u1, piece1, h1, h2, h3, _, h5, _, _, h8, _⟩ :=
      (new_operation_replaces_slot (22 / 7 : ℚ) busyTank "barrel" .Z _ hfind).1 9 2
    exact ⟨u1, piece1, h1, h2, h3, (h5 .X).trans rfl, h8 "turret" (by decide)⟩
  · obtain ⟨u1, piece1, h1, h2, h3, _, h5, _⟩ :=
      (new_operation_replaces_slot (22 / 7 : ℚ) busyTank "barrel" .X _ hfind).2.2 90 0
    refine ⟨u1, piece1, h1, h2, ?_, (h5 .Z).trans rfl⟩
    simpa using h3

theorem isMoveInProgress_of_piece (u : Unit F B) (p : String) (a : Axis)
    (piece : UnitMesh.Piece F) (h : u.mesh.find p = some piece) :
    u.isMoveInProgress p a = .ok (piece.moveOperation a).isSome := by
  unfold Unit.isMoveInProgress
  rw [h]
  cases a <;> rfl

theorem isTurnInProgress_of_piece (u : Unit F B) (p : String) (a : Axis)
    (piece : UnitMesh.Piece F) (h : u.mesh.find p = some piece) :
    u.isTurnInProgress p a = .ok (piece.turnOperation a).isSome := by
  unfold Unit.isTurnInProgress
  rw [h]
  cases a <;> rfl

/-- C12: for a piece that exists and each axis, `isMoveInProgress` returns
whether the move slot of that axis holds an operation and `isTurnInProgress`
whether its turn slot holds one (a turn, a spin or a stop-spin); both return a
value for each of the three axes, so the `throw` after the `switch` is never
reached; `isMoveInProgress` is true right after `moveObject` and false right
after `moveObjectNow` on the same piece and axis. -/
theorem progress_queries (u : Unit F B) (p : String) (a : Axis)
    (piece : UnitMesh.Piece F) (h : u.mesh.find p = some piece) :
    u.isMoveInProgress p a = .ok (piece.moveOperation a).isSome ∧
    u.isTurnInProgress p a = .ok (piece.turnOperation a).isSome ∧
    (u.isMoveInProgress p a = .ok true ↔ ∃ op, piece.moveOperation a = some op) ∧
    (u.isTurnInProgress p a = .ok true ↔
      (∃ op, piece.turnOperation a = some (.turn op)) ∨
      (∃ op, piece.turnOperation a = some (.spin op)) ∨
      (∃ op, piece.turnOperation a = some (.stopSpin op))) ∧
    (∀ t s : F, ∃ u1, u.moveObject p a t s = .ok u1 ∧ u1.isMoveInProgress p a = .ok true) ∧
    (∀ t : F, ∃ u1, u.moveObjectNow p a t = .ok u1 ∧ u1.isMoveInProgress p a = .ok false) := by
  refine ⟨isMoveInProgress_of_piece u p a piece h, isTurnInProgress_of_piece u p a piece h,
    ?_, ?_, ?_, ?_⟩
  · rw [isMoveInProgress_of_piece u p a piece h]
    cases piece.moveOperation a <;> simp
  · rw [isTurnInProgress_of_piece u p a piece h]
    cases hop : piece.turnOperation a with
    | none => simp
    | some op => cases op <;> simp
  · intro t s
    obtain ⟨piece1, h1, h2, _⟩ := update_withMoveOperation u.mesh p a (some ⟨t, s⟩) piece h
    refine ⟨_, moveObject_of_piece u p a t s piece h, ?_⟩
    rw [isMoveInProgress_of_piece _ p a piece1 h1, h2]
    rfl
  · intro t
    obtain ⟨f, hf, hname, hnone, _⟩ := moveObjectNow_of_piece u p a t piece h
    obtain ⟨h1, _⟩ := update_spec p f hname u.mesh piece h
    refine ⟨_, hf, ?_⟩
    rw [isMoveInProgress_of_piece _ p a (f piece) h1, hnone]
    rfl

/-- Witness of C12: the barrel of `busyTank` moves along Z and not along X. -/
theorem progress_queries_witness :
    busyTank.isMoveInProgress "barrel" .Z = .ok true ∧
    busyTank.isMoveInProgress "barrel" .X = .ok false ∧
    busyTank.isTurnInProgress "barrel" .X = .ok true ∧
    (∃ u1, busyTank.moveObject "barrel" .X 9 2 = .ok u1 ∧
      u1.isMoveInProgress "barrel" .X = .ok true) ∧
    (∃ u1, busyTank.moveObjectNow "barrel" .Z 9 = .ok u1 ∧
      u1.isMoveInProgress "barrel" .Z = .ok false) := by
  have hfind : busyTank.mesh.find "barrel"
      = some { restingPiece "barrel" with
          zMoveOperation := some ⟨4, 1⟩, xTurnOperation := some (.turn ⟨⟨1⟩, 2⟩) } := by
    simp [busyTank, busyMesh, UnitMesh.find, UnitMesh.findAmong, restingPiece]
  exact ⟨(progress_queries busyTank "barrel" .Z _ hfind).1,
    (progress_queries busyTank "barrel" .X _ hfind).1,
    (progress_queries busyTank "barrel" .X _ hfind).2.1,
    (progress_queries busyTank "barrel" .X _ hfind).2.2.2.2.1 9 2,
    (progress_queries busyTank "barrel" .Z _ hfind).2.2.2.2.2 9⟩

/-- C13: invalid piece reference.  A piece is absent when `find` returns
nothing, that is when no piece of the mesh bears the name.  Each of the six
piece commands and the two queries throws the runtime error with the text
`Invalid piece name` followed by the name when the piece is absent, leaving the
unit as it was, and returns when the piece is there. -/
theorem invalid_piece_reference [Field F] [BEq F] (Pif : F) (u : Unit F B) (p : String) :
    (u.mesh.find p = none ↔ ∀ q ∈ u.mesh.pieces, q.name ≠ p) ∧
    (u.mesh.find p = none →
      (∀ (a : Axis) (t s : F), u.moveObject p a t s = .error ("Invalid piece name: " ++ p) ∧
        u.after (u.moveObject p a t s) = u) ∧
      (∀ (a : Axis) (t : F), u.moveObjectNow p a t = .error ("Invalid piece name: " ++ p) ∧
        u.after (u.moveObjectNow p a t) = u) ∧
      (∀ (a : Axis) (t : RadiansAngle F) (s : F),
        u.turnObject Pif p a t s = .error ("Invalid piece name: " ++ p) ∧
        u.after (u.turnObject Pif p a t s) = u) ∧
      (∀ (a : Axis) (t : RadiansAngle F),
        u.turnObjectNow p a t = .error ("Invalid piece name: " ++ p) ∧
        u.after (u.turnObjectNow p a t) = u) ∧
      (∀ (a : Axis) (s acc : F),
        u.spinObject Pif p a s acc = .error ("Invalid piece name: " ++ p) ∧
        u.after (u.spinObject Pif p a s acc) = u) ∧
      (∀ (a : Axis) (d : F),
        u.stopSpinObject Pif p a d = .error ("Invalid piece name: " ++ p) ∧
        u.after (u.stopSpinObject Pif p a d) = u) ∧
      (∀ a : Axis, u.isMoveInProgress p a = .error ("Invalid piece name " ++ p)) ∧
      (∀ a : Axis, u.isTurnInProgress p a = .error ("Invalid piece name " ++ p))) ∧
    (u.mesh.find p ≠ none →
      (∀ (a : Axis) (t s : F), ∃ u1, u.moveObject p a t s = .ok u1) ∧
      (∀ (a : Axis) (t : F), ∃ u1, u.moveObjectNow p a t = .ok u1) ∧
      (∀ (a : Axis) (t : RadiansAngle F) (s : F), ∃ u1, u.turnObject Pif p a t s = .ok u1) ∧
      (∀ (a : Axis) (t : RadiansAngle F), ∃ u1, u.turnObjectNow p a t = .ok u1) ∧
      (∀ (a : Axis) (s acc : F), ∃ u1, u.spinObject Pif p a s acc = .ok u1) ∧
      (∀ (a : Axis) (d : F), ∃ u1, u.stopSpinObject Pif p a d = .ok u1) ∧
      (∀ a : Axis, ∃ b, u.isMoveInProgress p a = .ok b) ∧
      (∀ a : Axis, ∃ b, u.isTurnInProgress p a = .ok b)) := by
  refine ⟨find_eq_none_iff p u.mesh, ?_, ?_⟩
  · intro h
    refine ⟨?_, ?_, ?_, ?_, ?_, ?_, ?_, ?_⟩
    · intro a t s
      simp [Unit.moveObject, h, Unit.after]
    · intro a t
      simp [Unit.moveObjectNow, h, Unit.after]
    · intro a t s
      simp [Unit.turnObject, h, Unit.after]
    · intro a t
      simp [Unit.turnObjectNow, h, Unit.after]
    · intro a s acc
      simp [Unit.spinObject, h, Unit.after]
    · intro a d
      simp [Unit.stopSpinObject, h, Unit.after]
    · intro a
      simp [Unit.isMoveInProgress, h]
    · intro a
      simp [Unit.isTurnInProgress, h]
  · intro h
    obtain ⟨piece, hp⟩ := Option.ne_none_iff_exists'.mp h
    refine ⟨?_, ?_, ?_, ?_, ?_, ?_, ?_, ?_⟩
    · intro a t s
      exact ⟨_, moveObject_of_piece u p a t s piece hp⟩
    · intro a t
      obtain ⟨f, hf, _⟩ := moveObjectNow_of_piece u p a t piece hp
      exact ⟨_, hf⟩
    · intro a t s
      exact ⟨_, turnObject_of_piece Pif u p a t s piece hp⟩
    · intro a t
      unfold Unit.turnObjectNow
      rw [hp]
      cases a <;> exact ⟨_, rfl⟩
    · intro a s acc
      exact ⟨_, spinObject_of_piece Pif u p a s acc piece hp⟩
    · intro a d
      exact ⟨_, stopSpinObject_of_piece Pif u p a d piece hp⟩
    · intro a
      exact ⟨_, isMoveInProgress_of_piece u p a piece hp⟩
    · intro a
      exact ⟨_, isTurnInProgress_of_piece u p a piece hp⟩

theorem targetClearedThreads_eq (slots : List (Option (UnitWeapon F))) :
    ∀ start : Nat, targetClearedThreads start slots
      = (occupiedSlots slots).map fun i => targetClearedThread (start + i) := by
  induction slots with
  | nil => intro start; simp [targetClearedThreads, occupiedSlots]
  | cons slot rest ih =>
    intro start
    have hrest : occupiedSlots (slot :: rest)
        = (match slot with | some _ => [0] | none => []) ++ (occupiedSlots rest).map Nat.succ := by
      simp only [occupiedSlots, List.length_cons, List.range_succ_eq_map, List.filter_cons,
        List.filter_map]
      cases slot <;> simp [Function.comp_def]
    rw [hrest]
    cases slot with
    | none =>
      simp [targetClearedThreads, ih (start + 1), Function.comp_def, Nat.add_assoc,
        Nat.add_comm 1]
    | some w =>
      simp [targetClearedThreads, ih (start + 1), Function.comp_def, Nat.add_assoc,
        Nat.add_comm 1]

theorem mem_occupiedSlots (weapons : List (Option (UnitWeapon F))) (i : Nat) :
    i ∈ occupiedSlots weapons ↔ ∃ w, weapons[i]? = some (some w) := by
  simp only [occupiedSlots, List.mem_filter, List.mem_range]
  constructor
  · rintro ⟨_, h⟩
    split at h
    · next w hw => exact ⟨w, hw⟩
    · simp at h
  · rintro ⟨w, hw⟩
    obtain ⟨hi, _⟩ := List.getElem?_eq_some_iff.mp hw
    exact ⟨hi, by simp [hw]⟩

theorem occupiedSlots_increasing (weapons : List (Option (UnitWeapon F))) :
    (occupiedSlots weapons).Pairwise (· < ·) :=
  List.Pairwise.filter _ (List.pairwise_lt_range _)

/-- C16: `clearWeaponTargets` always returns, so it never reads a slot past the
end of the array (a read there has no result), and it spawns exactly one thread
`TargetCleared` per slot that holds a weapon, in increasing order of the slots,
with the slot index as argument, whatever the states of the weapons; so do
`clearOrders` and an order issuance. -/
theorem clearWeaponTargets_threads (u : Unit F B) :
    (∀ i : Nat, i ∈ occupiedSlots u.weapons ↔ ∃ w, u.weapons[i]? = some (some w)) ∧
    (occupiedSlots u.weapons).Pairwise (· < ·) ∧
    (∀ i : Nat, u.weapons.length ≤ i → u.clearWeaponTarget i = none) ∧
    (∃ u1, u.clearWeaponTargets = some u1 ∧
      u1.cobEnvironment.threads = u.cobEnvironment.threads
        ++ (occupiedSlots u.weapons).map fun i => ⟨"TargetCleared", [(i : Int)]⟩) ∧
    (∃ u1, u.clearOrders = some u1 ∧
      u1.cobEnvironment.threads = u.cobEnvironment.threads
        ++ (occupiedSlots u.weapons).map fun i => ⟨"TargetCleared", [(i : Int)]⟩) ∧
    (∀ o : UnitOrder F, ∃ u1, u.clearOrders = some u1 ∧
      (u1.addOrder o).cobEnvironment.threads = u.cobEnvironment.threads
        ++ (occupiedSlots u.weapons).map fun i => ⟨"TargetCleared", [(i : Int)]⟩) := by
  have hthreads : targetClearedThreads 0 u.weapons
      = (occupiedSlots u.weapons).map fun i => ⟨"TargetCleared", [(i : Int)]⟩ := by
    rw [targetClearedThreads_eq]
    simp [targetClearedThread]
  refine ⟨mem_occupiedSlots u.weapons, occupiedSlots_increasing u.weapons,
    clearWeaponTarget_of_outside u, ⟨_, clearWeaponTargets_eq u, ?_⟩,
    ⟨_, clearOrders_eq u, ?_⟩, fun o => ⟨_, clearOrders_eq u, ?_⟩⟩
  · rw [← hthreads]
  · rw [← hthreads]
  · rw [← hthreads]
    rfl

/-- C17: on a slot that holds no weapon, both `setWeaponTarget` functions and
`clearWeaponTarget` return the unit as it was: the slot stays empty and no
thread is spawned. -/
theorem empty_slot_untouched [BEq (Vector3f F)] (u : Unit F B) (i : Nat)
    (h : u.weapons[i]? = some none) :
    (∀ t : UnitId, u.setWeaponTarget i t = some u) ∧
    (∀ t : Vector3f F, u.setWeaponTargetPosition i t = some u) ∧
    u.clearWeaponTarget i = some u := by
  refine ⟨?_, ?_, clearWeaponTarget_of_empty u i h⟩
  · intro t
    simp [Unit.setWeaponTarget, h]
  · intro t
    simp [Unit.setWeaponTargetPosition, h]

/-- Witness of C17: slot 1 of `tank` is empty. -/
theorem empty_slot_untouched_witness :
    tank.weapons[1]? = some none ∧
    tank.setWeaponTarget 1 ⟨9⟩ = some tank ∧
    tank.setWeaponTargetPosition 1 ⟨5, 0, 5⟩ = some tank ∧
    tank.clearWeaponTarget 1 = some tank :=
  ⟨rfl, (empty_slot_untouched tank 1 rfl).1 ⟨9⟩,
    (empty_slot_untouched tank 1 rfl).2.1 ⟨5, 0, 5⟩,
    (empty_slot_untouched tank 1 rfl).2.2⟩

/-! ## Legacy angles -/

theorem pow2_eq (k : Int) : pow2 k = (2 : ℚ) ^ k := by
  unfold pow2
  split
  · next h =>
    obtain ⟨n, rfl⟩ := Int.eq_ofNat_of_zero_le h
    simp
  · next h =>
    obtain ⟨n, hn⟩ := Int.eq_ofNat_of_zero_le (show 0 ≤ -k by omega)
    have hk : k = -(n : Int) := by omega
    subst hk
    simp

theorem pow2_pos (k : Int) : 0 < pow2 k := by
  rw [pow2_eq]
  positivity

theorem bitLength_zero (fuel : Nat) : bitLength fuel 0 = 0 := by
  cases fuel <;> simp [bitLength]

theorem bitLength_spec : ∀ (fuel n : Nat), 0 < n → n ≤ fuel →
    2 ^ (bitLength fuel n - 1) ≤ n ∧ n < 2 ^ bitLength fuel n
  | 0, n, h0, hn => by omega
  | fuel + 1, n, h0, hn => by
    have hne : n ≠ 0 := by omega
    simp only [bitLength, hne, if_false, Nat.add_sub_cancel]
    by_cases h2 : n / 2 = 0
    · have h1 : n = 1 := by omega
      subst h1
      simp [bitLength_zero]
    · have hpos : 0 < n / 2 := Nat.pos_of_ne_zero h2
      have hle : n / 2 ≤ fuel := by omega
      obtain ⟨hlo, hhi⟩ := bitLength_spec fuel (n / 2) hpos hle
      have hb : 1 ≤ bitLength fuel (n / 2) := by
        by_contra hcon
        have : bitLength fuel (n / 2) = 0 := by omega
        rw [this] at hhi
        simp at hhi
        omega
      obtain ⟨b, hb'⟩ : ∃ b, bitLength fuel (n / 2) = b + 1 := ⟨_, (Nat.sub_add_cancel hb).symm⟩
      rw [hb'] at hlo hhi ⊢
      simp only [Nat.add_sub_cancel] at hlo
      have e1 : 2 ^ (b + 1) = 2 * 2 ^ b := by rw [Nat.pow_succ]; omega
      have e2 : 2 ^ (b + 1 + 1) = 2 * 2 ^ (b + 1) := by rw [Nat.pow_succ]; omega
      constructor <;> omega

theorem bitLength_bounds (n : Nat) (h : 0 < n) :
    ∃ m : Nat, bitLength n n = m + 1 ∧ 2 ^ m ≤ n ∧ n < 2 ^ (m + 1) := by
  obtain ⟨hlo, hhi⟩ := bitLength_spec n n h (Nat.le_refl n)
  have hb : 1 ≤ bitLength n n := by
    by_contra hcon
    have : bitLength n n = 0 := by omega
    rw [this] at hhi
    simp at hhi
    omega
  refine ⟨bitLength n n - 1, (Nat.sub_add_cancel hb).symm, hlo, ?_⟩
  rwa [Nat.sub_add_cancel hb]

/-- The exponent that `floorLog2` returns brackets its argument. -/
theorem floorLog2_spec (x : ℚ) (hx : 0 < x) :
    (2 : ℚ) ^ floorLog2 x ≤ x ∧ x < (2 : ℚ) ^ (floorLog2 x + 1) := by
  have hnum : 0 < x.num := Rat.num_pos.mpr hx
  have hp : 0 < x.num.natAbs := Int.natAbs_pos.mpr hnum.ne'
  obtain ⟨m, hm, hmlo, hmhi⟩ := bitLength_bounds x.num.natAbs hp
  obtain ⟨n, hn, hnlo, hnhi⟩ := bitLength_bounds x.den x.den_pos
  have hP : ((x.num.natAbs : ℕ) : ℚ) = (x.num : ℚ) := by
    rw [← Int.cast_natCast, Int.natAbs_of_nonneg hnum.le]
  have hxq : x = (x.num.natAbs : ℚ) / (x.den : ℚ) := by
    rw [hP]
    exact (Rat.num_div_den x).symm
  have hQ : (0 : ℚ) < (x.den : ℚ) := by exact_mod_cast x.den_pos
  have h1 : (2 : ℚ) ^ (m : ℤ) ≤ (x.num.natAbs : ℚ) := by
    rw [zpow_natCast]
    exact_mod_cast hmlo
  have h2 : (x.num.natAbs : ℚ) < (2 : ℚ) ^ ((m : ℤ) + 1) := by
    have : ((m : ℤ) + 1) = ((m + 1 : ℕ) : ℤ) := by push_cast; ring
    rw [this, zpow_natCast]
    exact_mod_cast hmhi
  have h3 : (2 : ℚ) ^ (n : ℤ) ≤ (x.den : ℚ) := by
    rw [zpow_natCast]
    exact_mod_cast hnlo
  have h4 : (x.den : ℚ) < (2 : ℚ) ^ ((n : ℤ) + 1) := by
    have : ((n : ℤ) + 1) = ((n + 1 : ℕ) : ℤ) := by push_cast; ring
    rw [this, zpow_natCast]
    exact_mod_cast hnhi
  have two : (2 : ℚ) ≠ 0 := by norm_num
  -- the candidate exponent
  have hk : ((bitLength x.num.natAbs x.num.natAbs : ℤ) - (bitLength x.den x.den : ℤ))
      = (m : ℤ) - (n : ℤ) := by
    rw [hm, hn]
    push_cast
    ring
  have hA : (2 : ℚ) ^ ((m : ℤ) - (n : ℤ) - 1) ≤ x := by
    rw [hxq, le_div_iff₀ hQ]
    have e : (2 : ℚ) ^ ((m : ℤ) - (n : ℤ) - 1) * (2 : ℚ) ^ ((n : ℤ) + 1) = (2 : ℚ) ^ (m : ℤ) := by
      rw [← zpow_add₀ two]
      congr 1
      ring
    have hpos : (0 : ℚ) < (2 : ℚ) ^ ((m : ℤ) - (n : ℤ) - 1) := by positivity
    calc (2 : ℚ) ^ ((m : ℤ) - (n : ℤ) - 1) * (x.den : ℚ)
        ≤ (2 : ℚ) ^ ((m : ℤ) - (n : ℤ) - 1) * (2 : ℚ) ^ ((n : ℤ) + 1) :=
          mul_le_mul_of_nonneg_left h4.le hpos.le
      _ = (2 : ℚ) ^ (m : ℤ) := e
      _ ≤ (x.num.natAbs : ℚ) := h1
  have hB : x < (2 : ℚ) ^ ((m : ℤ) - (n : ℤ) + 1) := by
    rw [hxq, div_lt_iff₀ hQ]
    have e : (2 : ℚ) ^ ((m : ℤ) - (n : ℤ) + 1) * (2 : ℚ) ^ (n : ℤ) = (2 : ℚ) ^ ((m : ℤ) + 1) := by
      rw [← zpow_add₀ two]
      congr 1
      ring
    have hpos : (0 : ℚ) < (2 : ℚ) ^ ((m : ℤ) - (n : ℤ) + 1) := by positivity
    calc (x.num.natAbs : ℚ) < (2 : ℚ) ^ ((m : ℤ) + 1) := h2
      _ = (2 : ℚ) ^ ((m : ℤ) - (n : ℤ) + 1) * (2 : ℚ) ^ (n : ℤ) := e.symm
      _ ≤ (2 : ℚ) ^ ((m : ℤ) - (n : ℤ) + 1) * (x.den : ℚ) :=
          mul_le_mul_of_nonneg_left h3 hpos.le
  unfold floorLog2
  simp only [hk, pow2_eq]
  split
  · next h => exact ⟨h, hB⟩
  · next h =>
    refine ⟨hA, ?_⟩
    rw [sub_add_cancel]
    exact lt_of_not_le h

theorem roundHalfEven_error (q : ℚ) : |(roundHalfEven q : ℚ) - q| ≤ 1 / 2 := by
  have h1 := Int.floor_le q
  have h2 := Int.lt_floor_add_one q
  unfold roundHalfEven
  simp only
  rw [abs_le]
  split
  · next h => constructor <;> linarith
  · next h =>
    split
    · next h' => push_cast; constructor <;> linarith
    · next h' =>
      have hr : q - ⌊q⌋ = 1 / 2 := le_antisymm (not_lt.mp h') (not_lt.mp h)
      split
      · constructor <;> linarith
      · push_cast; constructor <;> linarith

theorem roundHalfEven_intCast (z : Int) : roundHalfEven (z : ℚ) = z := by
  unfold roundHalfEven
  simp

/-- The relative error of one rounding to binary32, in the normal range. -/
theorem roundBinary32_error (x : ℚ) (hx : (2 : ℚ) ^ (-126 : ℤ) ≤ |x|) :
    |roundBinary32 x - x| ≤ |x| / 16777216 := by
  have hpos : 0 < |x| := lt_of_lt_of_le (by positivity) hx
  have hne : x ≠ 0 := abs_pos.mp hpos
  obtain ⟨hlo, hhi⟩ := floorLog2_spec |x| hpos
  have he : -126 ≤ floorLog2 |x| := by
    have : (2 : ℚ) ^ (-126 : ℤ) < (2 : ℚ) ^ (floorLog2 |x| + 1) := lt_of_le_of_lt hx hhi
    have := (zpow_lt_zpow_iff_right₀ (by norm_num : (1 : ℚ) < 2)).mp this
    omega
  have hmax : max (floorLog2 |x| - 23) (-149) = floorLog2 |x| - 23 := max_eq_left (by omega)
  unfold roundBinary32
  simp only [hne, if_false, hmax, pow2_eq]
  set ulp : ℚ := (2 : ℚ) ^ (floorLog2 |x| - 23) with hulp
  have hulp_pos : 0 < ulp := by positivity
  have herr := roundHalfEven_error (x / ulp)
  have hscale : |(roundHalfEven (x / ulp) : ℚ) * ulp - x| = |(roundHalfEven (x / ulp) : ℚ) - x / ulp| * ulp := by
    rw [← abs_of_pos hulp_pos, ← abs_mul, abs_of_pos hulp_pos]
    congr 1
    field_simp
  rw [hscale]
  have hu : ulp = (2 : ℚ) ^ floorLog2 |x| / 8388608 := by
    rw [hulp, zpow_sub₀ (by norm_num : (2 : ℚ) ≠ 0)]
    norm_num
  calc |(roundHalfEven (x / ulp) : ℚ) - x / ulp| * ulp ≤ 1 / 2 * ulp :=
        mul_le_mul_of_nonneg_right herr hulp_pos.le
    _ = (2 : ℚ) ^ floorLog2 |x| / 16777216 := by rw [hu]; ring
    _ ≤ |x| / 16777216 := by
        apply div_le_div_of_nonneg_right hlo
        norm_num

/-- An integer of fewer than 25 binary digits is a binary32 value. -/
theorem roundBinary32_intCast (n : Int) (hn : |n| < 16777216) : roundBinary32 (n : ℚ) = n := by
  by_cases h0 : n = 0
  · subst h0
    simp [roundBinary32]
  have hne : (n : ℚ) ≠ 0 := by exact_mod_cast h0
  have habs1 : (1 : ℚ) ≤ |(n : ℚ)| := by
    have : (1 : ℤ) ≤ |n| := Int.one_le_abs h0
    exact_mod_cast this
  have habs2 : |(n : ℚ)| < 16777216 := by exact_mod_cast hn
  obtain ⟨hlo, hhi⟩ := floorLog2_spec |(n : ℚ)| (lt_of_lt_of_le one_pos habs1)
  have he1 : floorLog2 |(n : ℚ)| < 24 := by
    have : (2 : ℚ) ^ floorLog2 |(n : ℚ)| < (2 : ℚ) ^ (24 : ℤ) := by
      refine lt_of_le_of_lt hlo (lt_of_lt_of_le habs2 ?_)
      norm_num
    exact (zpow_lt_zpow_iff_right₀ (by norm_num : (1 : ℚ) < 2)).mp this
  have he0 : 0 ≤ floorLog2 |(n : ℚ)| := by
    have : (2 : ℚ) ^ (0 : ℤ) < (2 : ℚ) ^ (floorLog2 |(n : ℚ)| + 1) := by
      refine lt_of_le_of_lt ?_ hhi
      simpa using habs1
    have := (zpow_lt_zpow_iff_right₀ (by norm_num : (1 : ℚ) < 2)).mp this
    omega
  obtain ⟨d, hd⟩ : ∃ d : ℕ, floorLog2 |(n : ℚ)| - 23 = -(d : ℤ) :=
    ⟨(23 - floorLog2 |(n : ℚ)|).toNat, by omega⟩
  have hmax : max (floorLog2 |(n : ℚ)| - 23) (-149) = -(d : ℤ) := by
    rw [← hd]
    exact max_eq_left (by omega)
  unfold roundBinary32
  simp only [hne, if_false, hmax, pow2_eq]
  have hq : (n : ℚ) / (2 : ℚ) ^ (-(d : ℤ)) = ((n * 2 ^ d : ℤ) : ℚ) := by
    rw [zpow_neg, zpow_natCast]
    push_cast
    field_simp
  rw [hq, roundHalfEven_intCast, zpow_neg, zpow_natCast]
  push_cast
  field_simp

theorem binary32_literal : roundBinary32 32768 = 32768 := by
  have := roundBinary32_intCast 32768 (by norm_num)
  simpa using this

theorem binary32_step : roundBinary32 (Pif32 / 32768) = 13176795 / 137438953472 := by
  decide!

theorem binary32_cast_angle (a : TaAngle) : roundBinary32 (a.value : ℚ) = a.value := by
  apply roundBinary32_intCast
  have h1 := a.inRange.1
  have h2 := a.inRange.2
  rw [abs_lt]
  constructor <;> omega

/-- In binary32 `toRadians(TaAngle)` rounds once: the cast of the angle and the
quotient `Pif / 32768.0f` are exact. -/
theorem toRadians_binary32 (a : TaAngle) :
    (toRadiansTaAngle binary32 Pif32 a).value
      = roundBinary32 ((a.value : ℚ) * (Pif32 / 32768)) := by
  have h32768 : roundBinary32 ((32768 : ℤ) : ℚ) = 32768 := by
    have := roundBinary32_intCast 32768 (by norm_num)
    simpa using this
  simp only [toRadiansTaAngle, binary32, binary32_cast_angle, h32768, binary32_step]
  norm_num [Pif32]

theorem binary32_normal_step : (2 : ℚ) ^ (-126 : ℤ) ≤ 1 / 32768 := by
  rw [zpow_neg]
  norm_num

/-- The error of `toRadians(TaAngle)` in binary32. -/
theorem toRadians_binary32_error (a : TaAngle) :
    |(toRadiansTaAngle binary32 Pif32 a).value - (a.value : ℚ) * (Pif32 / 32768)|
      ≤ |(a.value : ℚ) * (Pif32 / 32768)| / 16777216 := by
  rw [toRadians_binary32]
  by_cases h0 : a.value = 0
  · simp [h0, roundBinary32]
  apply roundBinary32_error
  have h1 : (1 : ℚ) ≤ |(a.value : ℚ)| := by
    have : (1 : ℤ) ≤ |a.value| := Int.one_le_abs h0
    exact_mod_cast this
  have hc : (0 : ℚ) < Pif32 / 32768 := by norm_num [Pif32]
  rw [abs_mul, abs_of_pos hc]
  calc (2 : ℚ) ^ (-126 : ℤ) ≤ 1 / 32768 := binary32_normal_step
    _ ≤ 1 * (Pif32 / 32768) := by norm_num [Pif32]
    _ ≤ |(a.value : ℚ)| * (Pif32 / 32768) := mul_le_mul_of_nonneg_right h1 hc.le

theorem toRadians_binary32_lowest :
    (toRadiansTaAngle binary32 Pif32 ⟨-32768, by decide⟩).value = -Pif32 := by
  decide!

/-- The range of `toRadians(TaAngle)` in binary32. -/
theorem toRadians_binary32_range (a : TaAngle) :
    -Pif32 ≤ (toRadiansTaAngle binary32 Pif32 a).value ∧
    (toRadiansTaAngle binary32 Pif32 a).value < Pif32 := by
  by_cases hlow : a.value = -32768
  · have : a = ⟨-32768, by decide⟩ := by
      cases a
      simp_all
    rw [this, toRadians_binary32_lowest]
    norm_num [Pif32]
  have herr := toRadians_binary32_error a
  have h1 : (-32767 : ℚ) ≤ (a.value : ℚ) := by
    have := a.inRange.1
    have : -32767 ≤ a.value := by omega
    exact_mod_cast this
  have h2 : (a.value : ℚ) ≤ 32767 := by exact_mod_cast a.inRange.2
  have habs : |(a.value : ℚ) * (Pif32 / 32768)| ≤ 32767 * (Pif32 / 32768) := by
    rw [abs_mul, abs_of_pos (by norm_num [Pif32] : (0 : ℚ) < Pif32 / 32768)]
    apply mul_le_mul_of_nonneg_right _ (by norm_num [Pif32])
    rw [abs_le]
    constructor <;> linarith
  have herr2 : |(toRadiansTaAngle binary32 Pif32 a).value - (a.value : ℚ) * (Pif32 / 32768)|
      ≤ 32767 * (Pif32 / 32768) / 16777216 :=
    herr.trans (div_le_div_of_nonneg_right habs (by norm_num))
  rw [abs_le] at herr2 habs
  have hPpos : (0 : ℚ) < Pif32 := by norm_num [Pif32]
  generalize (toRadiansTaAngle binary32 Pif32 a).value = v at *
  generalize (a.value : ℚ) * (Pif32 / 32768) = x at *
  constructor <;> linarith

/-- The constant `Pif32` is the binary32 value nearest to π, and lies above it. -/
theorem Pif32_near_pi :
    Real.pi < ((Pif32 : ℚ) : ℝ) ∧ ((Pif32 : ℚ) : ℝ) - Real.pi < 1 / 8388608 ∧
    roundBinary32 Pif32 = Pif32 := by
  have h1 := Real.pi_gt_d20
  have h2 := Real.pi_lt_d20
  refine ⟨?_, ?_, by decide!⟩
  · simp only [Pif32]
    push_cast
    norm_num at h2 ⊢
    linarith
  · simp only [Pif32]
    push_cast
    norm_num at h1 ⊢
    linarith

/-- The distance of `toRadians(TaAngle)` in binary32 from the real product with π. -/
theorem toRadians_binary32_pi (a : TaAngle) :
    |(((toRadiansTaAngle binary32 Pif32 a).value : ℚ) : ℝ) - (a.value : ℝ) * (Real.pi / 32768)|
      ≤ 3 / 10000000 := by
  have herr := toRadians_binary32_error a
  obtain ⟨hpi1, hpi2, _⟩ := Pif32_near_pi
  have hP : Pif32 = 13176795 / 4194304 := rfl
  rw [hP] at herr hpi1 hpi2
  push_cast at hpi1 hpi2
  have hlo : (-32768 : ℝ) ≤ (a.value : ℝ) := by exact_mod_cast a.inRange.1
  have hhi : (a.value : ℝ) ≤ 32767 := by exact_mod_cast a.inRange.2
  have habs : |(a.value : ℚ) * (13176795 / 4194304 / 32768)| ≤ 13176795 / 4194304 := by
    have hlo' : (-32768 : ℚ) ≤ (a.value : ℚ) := by exact_mod_cast a.inRange.1
    have hhi' : (a.value : ℚ) ≤ 32767 := by exact_mod_cast a.inRange.2
    rw [abs_le]
    constructor <;> linarith
  have herr2 : |(toRadiansTaAngle binary32 Pif32 a).value
      - (a.value : ℚ) * (13176795 / 4194304 / 32768)| ≤ 13176795 / 4194304 / 16777216 :=
    herr.trans (div_le_div_of_nonneg_right habs (by norm_num))
  have herr3 : |(((toRadiansTaAngle binary32 Pif32 a).value : ℚ) : ℝ)
      - (a.value : ℝ) * (13176795 / 4194304 / 32768)| ≤ 13176795 / 4194304 / 16777216 := by
    have := (Rat.cast_le (K := ℝ)).mpr herr2
    push_cast at this
    simpa using this
  have hy : |(a.value : ℝ) * ((13176795 / 4194304 - Real.pi) / 32768)|
      ≤ 13176795 / 4194304 - Real.pi := by
    have hd : 0 < (13176795 / 4194304 - Real.pi) / 32768 := by
      apply div_pos _ (by norm_num)
      linarith
    have ha : |(a.value : ℝ)| ≤ 32768 := by
      rw [abs_le]
      constructor <;> linarith
    rw [abs_mul, abs_of_pos hd]
    calc |(a.value : ℝ)| * ((13176795 / 4194304 - Real.pi) / 32768)
        ≤ 32768 * ((13176795 / 4194304 - Real.pi) / 32768) :=
          mul_le_mul_of_nonneg_right ha hd.le
      _ = 13176795 / 4194304 - Real.pi := by ring
  have hpi3 := Real.pi_gt_d20
  norm_num at hpi3
  generalize (((toRadiansTaAngle binary32 Pif32 a).value : ℚ) : ℝ) = v at *
  rw [abs_le] at herr3 hy ⊢
  obtain ⟨e1, e2⟩ := herr3
  obtain ⟨y1, y2⟩ := hy
  constructor <;> linarith

/-- C15, as the claim states it, fails on the code: in binary32, with the float
nearest to π for `Pif`, `toRadians(TaAngle(-32768))` is `-Pif`, which is below
-π, so outside `[-π, π)`; the product is rounded, `toRadians(TaAngle(15))` is
not `15 * (Pif / 32768)`; and the cast of 16777217 to float is 16777216, so
`toleranceToRadians(16777217)` is `16777216 * (Pif / 32768)`. -/
theorem toRadians_leaves_pi_range :
    (toRadiansTaAngle binary32 Pif32 ⟨-32768, by decide⟩).value = -Pif32 ∧
    (((toRadiansTaAngle binary32 Pif32 ⟨-32768, by decide⟩).value : ℚ) : ℝ) < -Real.pi ∧
    (toRadiansTaAngle binary32 Pif32 ⟨15, by decide⟩).value ≠ 15 * (Pif32 / 32768) ∧
    toleranceToRadians binary32 Pif32 16777217 = 16777216 * (Pif32 / 32768) ∧
    toleranceToRadians binary32 Pif32 16777217 ≠ 16777217 * (Pif32 / 32768) := by
  refine ⟨toRadians_binary32_lowest, ?_, by decide!, by decide!, by decide!⟩
  rw [toRadians_binary32_lowest]
  push_cast
  linarith [Pif32_near_pi.1]

/-- C15, amended: in the binary32 arithmetic of the code, with the float nearest
to π for `Pif` (above π by less than `2 ^ (-23)`), `toRadians(TaAngle a)` is
`a.value * (Pif / 32768)` rounded once, within the relative error `2 ^ (-24)`
of that product and within `3 / 10 ^ 7` of `a.value * (π / 32768)`;
`toleranceToRadians(n)` is the rounded product of the float of `n`, which is
`n` itself below `2 ^ 24`, and `Pif / 32768`; the two agree on every value of
`0 .. 32767`; `toRadians` maps every 16-bit angle into `[-Pif, Pif)`, the
angle -32768 to `-Pif`; the float of 16777217 is 16777216. -/
theorem legacy_angle_conversion_binary32 (a : TaAngle) (n : Fin 4294967296) :
    (toRadiansTaAngle binary32 Pif32 a).value
      = roundBinary32 ((a.value : ℚ) * (Pif32 / 32768)) ∧
    |(toRadiansTaAngle binary32 Pif32 a).value - (a.value : ℚ) * (Pif32 / 32768)|
      ≤ |(a.value : ℚ) * (Pif32 / 32768)| / 16777216 ∧
    |(((toRadiansTaAngle binary32 Pif32 a).value : ℚ) : ℝ)
      - (a.value : ℝ) * (Real.pi / 32768)| ≤ 3 / 10000000 ∧
    toleranceToRadians binary32 Pif32 n
      = roundBinary32 (roundBinary32 (n.val : ℚ) * (Pif32 / 32768)) ∧
    (n.val < 16777216 → roundBinary32 (n.val : ℚ) = (n.val : ℚ)) ∧
    (∀ h : (n.val : Int) ≤ 32767,
      toleranceToRadians binary32 Pif32 n
        = (toRadiansTaAngle binary32 Pif32 ⟨(n.val : Int), ⟨by omega, h⟩⟩).value) ∧
    -Pif32 ≤ (toRadiansTaAngle binary32 Pif32 a).value ∧
    (toRadiansTaAngle binary32 Pif32 a).value < Pif32 ∧
    (toRadiansTaAngle binary32 Pif32 ⟨-32768, by decide⟩).value = -Pif32 ∧
    roundBinary32 16777217 = 16777216 ∧
    roundBinary32 Pif32 = Pif32 ∧
    Real.pi < ((Pif32 : ℚ) : ℝ) ∧
    ((Pif32 : ℚ) : ℝ) - Real.pi < 1 / 8388608 := by
  have h32768 : roundBinary32 ((32768 : ℤ) : ℚ) = 32768 := by
    have := roundBinary32_intCast 32768 (by norm_num)
    simpa using this
  refine ⟨toRadians_binary32 a, toRadians_binary32_error a, toRadians_binary32_pi a, ?_, ?_,
    fun _ => rfl, (toRadians_binary32_range a).1, (toRadians_binary32_range a).2,
    toRadians_binary32_lowest, by decide!, Pif32_near_pi.2.2,
    Pif32_near_pi.1, Pif32_near_pi.2.1⟩
  · simp only [toleranceToRadians, binary32, h32768, binary32_step, Int.cast_natCast]
    norm_num [Pif32]
  · intro hn
    have := roundBinary32_intCast (n.val : ℤ) (by
      rw [abs_lt]
      constructor <;> omega)
    simpa using this

/-- The two cabinet shears of the camera are inverse to each other. -/
theorem cabinetProjection_inverse [Field F] (x y : F) :
    (Matrix4f.cabinetProjection x y : Matrix4f F) * Matrix4f.cabinetProjection (-x) (-y) = 1 := by
  ext i j
  fin_cases i <;> fin_cases j <;>
    simp [Matrix4f.cabinetProjection, Matrix.mul_apply, Fin.sum_univ_four, Matrix.one_apply,
      Matrix.vecHead, Matrix.vecTail]

/-- The entry of row 2 and column 2 of either product of the projection matrix
and the matrix that `getInverseProjectionMatrix` returns is a millionth, for
every camera. -/
theorem projection_product_entry [LinearOrderedField F] (camera : CabinetCamera F) :
    (camera.getProjectionMatrix * camera.getInverseProjectionMatrix) 2 2 = 1 / 1000000 ∧
    (camera.getInverseProjectionMatrix * camera.getProjectionMatrix) 2 2 = 1 / 1000000 := by
  constructor
  · simp [CabinetCamera.getProjectionMatrix, CabinetCamera.getInverseProjectionMatrix,
      Matrix4f.cabinetProjection, Matrix4f.orthographicProjection, Matrix.mul_apply,
      Fin.sum_univ_four]
    norm_num
  · simp [CabinetCamera.getProjectionMatrix, CabinetCamera.getInverseProjectionMatrix,
      Matrix4f.cabinetProjection, Matrix4f.orthographicProjection, Matrix.mul_apply,
      Fin.sum_univ_four]
    norm_num

/-- The matrix that `getInverseProjectionMatrix` returns is not the inverse of
the projection matrix, for any camera. -/
theorem projection_product_ne_one [LinearOrderedField F] (camera : CabinetCamera F) :
    camera.getProjectionMatrix * camera.getInverseProjectionMatrix ≠ 1 ∧
    camera.getInverseProjectionMatrix * camera.getProjectionMatrix ≠ 1 := by
  obtain ⟨h1, h2⟩ := projection_product_entry camera
  constructor
  · intro h
    rw [h] at h1
    norm_num at h1
  · intro h
    rw [h] at h2
    norm_num at h2

/-- C19 fails on the code: for the camera of 640 by 480 the product of
`getProjectionMatrix` and `getInverseProjectionMatrix` has a millionth where the
identity has 1, in row 2 and column 2, in either order; the product is the
square of the orthographic matrix, since the cabinet shears cancel. -/
theorem vga_projection_not_inverted :
    (0 : ℚ) < vgaCamera.width ∧ (0 : ℚ) < vgaCamera.height ∧
    (vgaCamera.getProjectionMatrix * vgaCamera.getInverseProjectionMatrix) 2 2
      = 1 / 1000000 ∧
    (vgaCamera.getInverseProjectionMatrix * vgaCamera.getProjectionMatrix) 2 2
      = 1 / 1000000 ∧
    vgaCamera.getProjectionMatrix * vgaCamera.getInverseProjectionMatrix ≠ 1 ∧
    vgaCamera.getInverseProjectionMatrix * vgaCamera.getProjectionMatrix ≠ 1 ∧
    vgaCamera.getProjectionMatrix * vgaCamera.getInverseProjectionMatrix
      = Matrix4f.orthographicProjection (-320) 320 (-240) 240 (-1000) 1000
        * Matrix4f.orthographicProjection (-320) 320 (-240) 240 (-1000) 1000 := by
  refine ⟨by norm_num [vgaCamera], by norm_num [vgaCamera],
    (projection_product_entry vgaCamera).1, (projection_product_entry vgaCamera).2,
    (projection_product_ne_one vgaCamera).1, (projection_product_ne_one vgaCamera).2, ?_⟩
  have hc := cabinetProjection_inverse (0 : ℚ) (1 / 2)
  simp only [neg_zero] at hc
  simp only [CabinetCamera.getProjectionMatrix, CabinetCamera.getInverseProjectionMatrix]
  rw [Matrix.mul_assoc, ← Matrix.mul_assoc (Matrix4f.cabinetProjection 0 (1 / 2)), hc,
    Matrix.one_mul]
  norm_num [vgaCamera]

end rwe
